import Mathlib

set_option maxRecDepth 8000

namespace Chip8

/-!
Shallow embedding of the CHIP-8 toolkit's virtual machine core
(src/src/system.rs, src/src/decode.rs, src/src/execute.rs, src/src/run.rs,
src/src/debug_terminal.rs).  Machine integers are naturals: u8 / u16
arithmetic that can wrap is written with an explicit `% 256` / `% 65536`,
and the source's 12-bit address assertions (`assert!((v & 0xF000) == 0)`)
are modeled by `Option`-valued accessors where `none` stands for the panic.
-/

/-! ### Keyboard -/

/-- Host keyboard keys referenced by the emulator (`device_query::Keycode`):
the sixteen keys of the CHIP-8 keypad layout of run.rs plus Escape, Up and
Down, which the runtime loop and the debugger read but which carry no
CHIP-8 key code. -/
inductive Keycode where
  | key1 | key2 | key3 | key4
  | q | w | e | r
  | a | s | d | f
  | z | x | c | v
  | escape | up | down
deriving DecidableEq, Repr

/-- KEYPRESS_MAP (run.rs 48-71): host key to 4-bit CHIP-8 key code. -/
def KEYPRESS_MAP : Keycode → Option Nat
  | .key1 => some 0x1
  | .key2 => some 0x2
  | .key3 => some 0x3
  | .key4 => some 0xC
  | .q => some 0x4
  | .w => some 0x5
  | .e => some 0x6
  | .r => some 0xD
  | .a => some 0x7
  | .s => some 0x8
  | .d => some 0x9
  | .f => some 0xE
  | .z => some 0xA
  | .x => some 0x0
  | .c => some 0xB
  | .v => some 0xF
  | _ => none

/-- REVERSE_KEYPRESS_MAP (run.rs 72-95): 4-bit CHIP-8 key code to host key. -/
def REVERSE_KEYPRESS_MAP : Nat → Option Keycode
  | 0x0 => some .x
  | 0x1 => some .key1
  | 0x2 => some .key2
  | 0x3 => some .key3
  | 0x4 => some .q
  | 0x5 => some .w
  | 0x6 => some .e
  | 0x7 => some .a
  | 0x8 => some .s
  | 0x9 => some .d
  | 0xA => some .z
  | 0xB => some .c
  | 0xC => some .key4
  | 0xD => some .r
  | 0xE => some .f
  | 0xF => some .v
  | _ => none

/-! ### Instruction model -/

/-- The instruction tagged union (`c8util::instructions::Instruction`, whose
variants are fixed by their uses in src/src/decode.rs and
src/src/execute.rs).  Register operands are modeled as their 4-bit index
(the `Register` enum of system.rs is isomorphic to 0..15), `nnn` is a
12-bit address, `nn` a byte, `n` a nibble, and `db` carries a raw 16-bit
word. -/
inductive Instruction where
  | executeMachineLanguageRoutine
  | clear
  | subroutineReturn
  | jump (nnn : Nat)
  | subroutineCall (nnn : Nat)
  | skipConditional1 (vx nn : Nat)
  | skipConditional2 (vx nn : Nat)
  | skipConditional3 (vx vy : Nat)
  | setRegister (vx nn : Nat)
  | add (vx nn : Nat)
  | regSet (vx vy : Nat)
  | binaryOr (vx vy : Nat)
  | binaryAnd (vx vy : Nat)
  | binaryXor (vx vy : Nat)
  | regAdd (vx vy : Nat)
  | subtract1 (vx vy : Nat)
  | shiftRight (vx vy : Nat)
  | subtract2 (vx vy : Nat)
  | shiftLeft (vx vy : Nat)
  | skipConditional4 (vx vy : Nat)
  | setIndexRegister (nnn : Nat)
  | jumpOffset (nnn : Nat)
  | random (vx nn : Nat)
  | draw (vx vy n : Nat)
  | skipIfKey (vx : Nat)
  | skipIfNotKey (vx : Nat)
  | getDelayTimer (vx : Nat)
  | setDelayTimer (vx : Nat)
  | setSoundTimer (vx : Nat)
  | addToIndex (vx : Nat)
  | getKey (vx : Nat)
  | fontCharacter (vx : Nat)
  | bcd (vx : Nat)
  | storeMemory (vx : Nat)
  | loadMemory (vx : Nat)
  | db (w : Nat)
deriving DecidableEq, Repr

/-- decode (src/src/decode.rs): partition a 16-bit word on its nibbles. -/
def decode (ins : Nat) : Option Instruction :=
  let first := (ins &&& 0xF000) >>> 12
  let second := (ins &&& 0x0F00) >>> 8
  let third := (ins &&& 0x00F0) >>> 4
  let fourth := ins &&& 0x000F
  match first with
  | 0x0 =>
    match second with
    | 0x0 =>
      match third with
      | 0xE =>
        match fourth with
        | 0xE => some .subroutineReturn
        | 0x0 => some .clear
        | _ => none
      | _ => none
    | _ => none
  | 0x1 => some (.jump (ins &&& 0x0FFF))
  | 0x2 => some (.subroutineCall (ins &&& 0x0FFF))
  | 0x3 => some (.skipConditional1 second (ins &&& 0x00FF))
  | 0x4 => some (.skipConditional2 second (ins &&& 0x00FF))
  | 0x5 =>
    match fourth with
    | 0 => some (.skipConditional3 second third)
    | _ => none
  | 0x6 => some (.setRegister second (ins &&& 0xFF))
  | 0x7 => some (.add second (ins &&& 0x00FF))
  | 0x8 =>
    match fourth with
    | 0 => some (.regSet second third)
    | 1 => some (.binaryOr second third)
    | 2 => some (.binaryAnd second third)
    | 3 => some (.binaryXor second third)
    | 4 => some (.regAdd second third)
    | 5 => some (.subtract1 second third)
    | 6 => some (.shiftRight second third)
    | 7 => some (.subtract2 second third)
    | 0xE => some (.shiftLeft second third)
    | _ => none
  | 0x9 =>
    match fourth with
    | 0 => some (.skipConditional4 second third)
    | _ => none
  | 0xA => some (.setIndexRegister (ins &&& 0xFFF))
  | 0xB => some (.jumpOffset (ins &&& 0xFFF))
  | 0xC => some (.random second (ins &&& 0x00FF))
  | 0xD => some (.draw second third fourth)
  | 0xE =>
    match ins &&& 0x00FF with
    | 0x9E => some (.skipIfKey second)
    | 0xA1 => some (.skipIfNotKey second)
    | _ => none
  | 0xF =>
    match ins &&& 0x00FF with
    | 0x07 => some (.getDelayTimer second)
    | 0x0A => some (.getKey second)
    | 0x15 => some (.setDelayTimer second)
    | 0x18 => some (.setSoundTimer second)
    | 0x1E => some (.addToIndex second)
    | 0x29 => some (.fontCharacter second)
    | 0x33 => some (.bcd second)
    | 0x55 => some (.storeMemory second)
    | 0x65 => some (.loadMemory second)
    | _ => none
  | _ => none

/-- Modelled from the spec: the 16-bit encoder (`encode` lives in the
`c8util` crate, which is not among the provided sources; only `decode` is).
Each arm packs the nibble pattern of the decode table in spec section 6,
and `Db(w)` encodes to `w` as section 4.1 states.  The variant
`executeMachineLanguageRoutine` has the operand-less `0NNN` shape; it is
encoded here as 0x0000 (the choice does not matter for round-tripping:
every `0NNN` word decodes to `Clear`, `SubroutineReturn` or nothing). -/
def encode : Instruction → Nat
  | .executeMachineLanguageRoutine => 0x0000
  | .clear => 0x00E0
  | .subroutineReturn => 0x00EE
  | .jump nnn => 0x1000 + nnn
  | .subroutineCall nnn => 0x2000 + nnn
  | .skipConditional1 vx nn => 0x3000 + vx * 256 + nn
  | .skipConditional2 vx nn => 0x4000 + vx * 256 + nn
  | .skipConditional3 vx vy => 0x5000 + vx * 256 + vy * 16
  | .setRegister vx nn => 0x6000 + vx * 256 + nn
  | .add vx nn => 0x7000 + vx * 256 + nn
  | .regSet vx vy => 0x8000 + vx * 256 + vy * 16
  | .binaryOr vx vy => 0x8001 + vx * 256 + vy * 16
  | .binaryAnd vx vy => 0x8002 + vx * 256 + vy * 16
  | .binaryXor vx vy => 0x8003 + vx * 256 + vy * 16
  | .regAdd vx vy => 0x8004 + vx * 256 + vy * 16
  | .subtract1 vx vy => 0x8005 + vx * 256 + vy * 16
  | .shiftRight vx vy => 0x8006 + vx * 256 + vy * 16
  | .subtract2 vx vy => 0x8007 + vx * 256 + vy * 16
  | .shiftLeft vx vy => 0x800E + vx * 256 + vy * 16
  | .skipConditional4 vx vy => 0x9000 + vx * 256 + vy * 16
  | .setIndexRegister nnn => 0xA000 + nnn
  | .jumpOffset nnn => 0xB000 + nnn
  | .random vx nn => 0xC000 + vx * 256 + nn
  | .draw vx vy n => 0xD000 + vx * 256 + vy * 16 + n
  | .skipIfKey vx => 0xE09E + vx * 256
  | .skipIfNotKey vx => 0xE0A1 + vx * 256
  | .getDelayTimer vx => 0xF007 + vx * 256
  | .getKey vx => 0xF00A + vx * 256
  | .setDelayTimer vx => 0xF015 + vx * 256
  | .setSoundTimer vx => 0xF018 + vx * 256
  | .addToIndex vx => 0xF01E + vx * 256
  | .fontCharacter vx => 0xF029 + vx * 256
  | .bcd vx => 0xF033 + vx * 256
  | .storeMemory vx => 0xF055 + vx * 256
  | .loadMemory vx => 0xF065 + vx * 256
  | .db w => w

/-- Operand bounds (spec section 4.1): register operands fit in one nibble,
address operands in 12 bits, byte operands in 8 bits; `db` carries a full
16-bit word.  These bounds are invariants of the Rust operand types. -/
def wellFormed : Instruction → Prop
  | .executeMachineLanguageRoutine => True
  | .clear => True
  | .subroutineReturn => True
  | .jump nnn => nnn < 4096
  | .subroutineCall nnn => nnn < 4096
  | .skipConditional1 vx nn => vx < 16 ∧ nn < 256
  | .skipConditional2 vx nn => vx < 16 ∧ nn < 256
  | .skipConditional3 vx vy => vx < 16 ∧ vy < 16
  | .setRegister vx nn => vx < 16 ∧ nn < 256
  | .add vx nn => vx < 16 ∧ nn < 256
  | .regSet vx vy => vx < 16 ∧ vy < 16
  | .binaryOr vx vy => vx < 16 ∧ vy < 16
  | .binaryAnd vx vy => vx < 16 ∧ vy < 16
  | .binaryXor vx vy => vx < 16 ∧ vy < 16
  | .regAdd vx vy => vx < 16 ∧ vy < 16
  | .subtract1 vx vy => vx < 16 ∧ vy < 16
  | .shiftRight vx vy => vx < 16 ∧ vy < 16
  | .subtract2 vx vy => vx < 16 ∧ vy < 16
  | .shiftLeft vx vy => vx < 16 ∧ vy < 16
  | .skipConditional4 vx vy => vx < 16 ∧ vy < 16
  | .setIndexRegister nnn => nnn < 4096
  | .jumpOffset nnn => nnn < 4096
  | .random vx nn => vx < 16 ∧ nn < 256
  | .draw vx vy n => vx < 16 ∧ vy < 16 ∧ n < 16
  | .skipIfKey vx => vx < 16
  | .skipIfNotKey vx => vx < 16
  | .getDelayTimer vx => vx < 16
  | .setDelayTimer vx => vx < 16
  | .setSoundTimer vx => vx < 16
  | .addToIndex vx => vx < 16
  | .getKey vx => vx < 16
  | .fontCharacter vx => vx < 16
  | .bcd vx => vx < 16
  | .storeMemory vx => vx < 16
  | .loadMemory vx => vx < 16
  | .db w => w < 65536

/-! ### Machine state and the system.rs accessors -/

/-- The machine state of system.rs: MEMORY (4096 bytes), DISPLAY (64 x 32),
PC, I, STACK, the two timers and REGISTERS.  Memory bytes and registers are
functions from the address / 4-bit register index. -/
structure Chip8State where
  memory : Nat → Nat
  display : Nat → Nat → Bool
  pc : Nat
  iReg : Nat
  stack : List Nat
  delayTimer : Nat
  soundTimer : Nat
  regs : Nat → Nat

def DISPLAY_WIDTH : Nat := 64

def DISPLAY_HEIGHT : Nat := 32

/-- get_memory_u8: asserts the address is 12-bit; `none` models the panic. -/
def getMemoryU8 (s : Chip8State) (addr : Nat) : Option Nat :=
  if addr &&& 0xF000 = 0 then some (s.memory addr) else none

/-- set_memory_u8: asserts the address is 12-bit. -/
def setMemoryU8 (s : Chip8State) (addr val : Nat) : Option Chip8State :=
  if addr &&& 0xF000 = 0 then
    some { s with memory := fun a => if a = addr then val else s.memory a }
  else none

/-- get_memory_u16: asserts addr+1 is 12-bit, then reads the big-endian word
`memory[addr] << 8 | memory[addr+1]` through the (also asserting) u8 reads. -/
def getMemoryU16 (s : Chip8State) (addr : Nat) : Option Nat :=
  if (addr + 1) &&& 0xF000 = 0 then
    match getMemoryU8 s addr, getMemoryU8 s (addr + 1) with
    | some hi, some lo => some ((hi <<< 8) ||| lo)
    | _, _ => none
  else none

/-- set_memory_u16: asserts addr is 12-bit, then stores the high byte at
addr and the low byte at addr+1 (each u8 store asserts again). -/
def setMemoryU16 (s : Chip8State) (addr val : Nat) : Option Chip8State :=
  if addr &&& 0xF000 = 0 then do
    let s1 ← setMemoryU8 s addr ((val >>> 8) &&& 0x00FF)
    setMemoryU8 s1 (addr + 1) (val &&& 0x00FF)
  else none

/-- set_pc: asserts the value is 12-bit; `none` models the panic. -/
def setPc (s : Chip8State) (val : Nat) : Option Chip8State :=
  if val &&& 0xF000 = 0 then some { s with pc := val } else none

/-- set_i: asserts the value is 12-bit; `none` models the panic. -/
def setI (s : Chip8State) (val : Nat) : Option Chip8State :=
  if val &&& 0xF000 = 0 then some { s with iReg := val } else none

/-- stack_push: no check at all in system.rs.  The top of the Vec is the
head of the list. -/
def stackPush (s : Chip8State) (val : Nat) : Chip8State :=
  { s with stack := val :: s.stack }

/-- stack_pop: `none` when the stack is empty. -/
def stackPop (s : Chip8State) : Option (Nat × Chip8State) :=
  match s.stack with
  | [] => none
  | val :: rest => some (val, { s with stack := rest })

/-- set_display.  The source asserts x < 64 and y < 32; every call in the
executor is guarded by exactly those bounds (the Clear loop ranges and the
Draw clipping tests), so the accessor is modeled total over the display
function.  The same holds for get_display, which is a plain field read. -/
def setDisplay (s : Chip8State) (x y : Nat) (val : Bool) : Chip8State :=
  { s with display := fun a b => if a = x ∧ b = y then val else s.display a b }

/-- set_register.  In the source the register tag makes the index 0..15 by
construction. -/
def setRegister (s : Chip8State) (reg val : Nat) : Chip8State :=
  { s with regs := fun r => if r = reg then val else s.regs r }

/-! ### The executor (src/src/execute.rs) -/

/-- The Clear (00E0) inner loop: blank one display column. -/
def clearColumn (s : Chip8State) (i : Nat) : Chip8State :=
  (List.range DISPLAY_HEIGHT).foldl (fun t j => setDisplay t i j false) s

/-- The Clear (00E0) loop: set every display pixel to false. -/
def clearScreen (s : Chip8State) : Chip8State :=
  (List.range DISPLAY_WIDTH).foldl clearColumn s

/-- One iteration of the Draw inner loop (execute.rs 186-202) at column
counter j: display_x = x + 8 - j - 1, clip at the right edge, XOR the
sprite bit in and raise VF on an on-to-off flip. -/
def drawPixel (x dy v j : Nat) (s : Chip8State) : Chip8State :=
  let dx := x + 8 - j - 1
  if DISPLAY_WIDTH ≤ dx then s
  else
    let isSet : Bool := (v >>> j) &&& 0x1 != 0
    let dval := s.display dx dy
    if isSet then
      let s1 := setDisplay s dx dy (xor dval isSet)
      if dval then setRegister s1 0xF 1 else s1
    else s

/-- The Draw inner loop: the source iterates j over (0..8).rev(), so
`drawCols x dy v c` processes j = c-1, c-2, ..., 0 (call it with c = 8). -/
def drawCols (x dy v : Nat) : Nat → Chip8State → Chip8State
  | 0, s => s
  | c + 1, s => drawCols x dy v c (drawPixel x dy v c s)

/-- The Draw outer loop over sprite rows idx, idx+1, ..., idx+cnt-1
(execute.rs 179-203): clip at the bottom edge before the memory read,
read the sprite byte (12-bit assertion), then run the column loop. -/
def drawRows (x y loc : Nat) : Nat → Nat → Chip8State → Option Chip8State
  | _, 0, s => some s
  | idx, cnt + 1, s =>
    let dy := y + idx
    if DISPLAY_HEIGHT ≤ dy then drawRows x y loc (idx + 1) cnt s
    else
      match getMemoryU8 s ((loc + idx) % 65536) with
      | none => none
      | some v => drawRows x y loc (idx + 1) cnt (drawCols x dy v 8 s)

/-- The StoreMemory (FX55) loop body, iterating register index idx for cnt
steps: memory[I] ← V_idx then I ← I + 1 (both asserted 12-bit). -/
def storeLoop : Nat → Nat → Chip8State → Option Chip8State
  | _, 0, s => some s
  | idx, cnt + 1, s => do
    let s1 ← setMemoryU8 s s.iReg (s.regs idx)
    let s2 ← setI s1 ((s1.iReg + 1) % 65536)
    storeLoop (idx + 1) cnt s2

/-- The LoadMemory (FX65) loop body: V_idx ← memory[I] then I ← I + 1. -/
def loadLoop : Nat → Nat → Chip8State → Option Chip8State
  | _, 0, s => some s
  | idx, cnt + 1, s => do
    let v ← getMemoryU8 s s.iReg
    let s2 := setRegister s idx v
    let s3 ← setI s2 ((s2.iReg + 1) % 65536)
    loadLoop (idx + 1) cnt s3

/-- The executor of src/src/execute.rs.  `pressed` / `last` are the two
keyboard samples (HashSet iteration order becomes list order), `step` is
n_instructions_executed, and `ts` stands for the nanosecond timestamp the
Random arm reads from the system clock.  `none` models a panic: an
explicit panic!/expect/unwrap or a failed 12-bit assertion in a system.rs
accessor.  u16 sums carry an explicit `% 65536` (u16 wrap), u8 wrapping
ops an explicit `% 256`. -/
def execute (instruction : Instruction) (pressed last : List Keycode)
    (step ts : Nat) (s : Chip8State) : Option Chip8State :=
  match instruction with
  | .executeMachineLanguageRoutine => none
  | .clear => some (clearScreen s)
  | .subroutineReturn => do
    let (v, s1) ← stackPop s
    setPc s1 v
  | .jump nnn => setPc s nnn
  | .subroutineCall nnn => setPc (stackPush s s.pc) nnn
  | .skipConditional1 vx nn =>
    if s.regs vx = nn then setPc s ((s.pc + 2) % 65536) else some s
  | .skipConditional2 vx nn =>
    if s.regs vx ≠ nn then setPc s ((s.pc + 2) % 65536) else some s
  | .skipConditional3 vx vy =>
    if s.regs vx = s.regs vy then setPc s ((s.pc + 2) % 65536) else some s
  | .setRegister vx nn => some (setRegister s vx nn)
  | .add vx nn => some (setRegister s vx ((s.regs vx + nn) % 256))
  | .regSet vx vy => some (setRegister s vx (s.regs vy))
  | .binaryOr vx vy =>
    some (setRegister (setRegister s vx (s.regs vx ||| s.regs vy)) 0xF 0)
  | .binaryAnd vx vy =>
    some (setRegister (setRegister s vx (s.regs vx &&& s.regs vy)) 0xF 0)
  | .binaryXor vx vy =>
    some (setRegister (setRegister s vx (s.regs vx ^^^ s.regs vy)) 0xF 0)
  | .regAdd vx vy =>
    let sum := s.regs vx + s.regs vy
    some (setRegister (setRegister s vx (sum % 255)) 0xF (if 255 < sum then 1 else 0))
  | .subtract1 vx vy =>
    let subbed : Int := (s.regs vx : Int) - (s.regs vy : Int)
    some (setRegister (setRegister s vx ((s.regs vx + 256 - s.regs vy) % 256)) 0xF
      (if 0 ≤ subbed then 1 else 0))
  | .shiftRight vx vy =>
    let s1 := setRegister s vx (s.regs vy)
    let oldVx := s1.regs vx
    let s2 := setRegister s1 vx ((s1.regs vx >>> 1) &&& 0x7F)
    some (setRegister s2 0xF (oldVx &&& 1))
  | .subtract2 vx vy =>
    let subbed : Int := (s.regs vy : Int) - (s.regs vx : Int)
    some (setRegister (setRegister s vx ((s.regs vy + 256 - s.regs vx) % 256)) 0xF
      (if 0 ≤ subbed then 1 else 0))
  | .shiftLeft vx vy =>
    let s1 := setRegister s vx (s.regs vy)
    let oldVx := s1.regs vx
    let s2 := setRegister s1 vx (((s1.regs vx <<< 1) % 256) &&& 0xFE)
    some (setRegister s2 0xF (if oldVx &&& 0x80 = 0x80 then 1 else 0))
  | .skipConditional4 vx vy =>
    if s.regs vx ≠ s.regs vy then setPc s ((s.pc + 2) % 65536) else some s
  | .setIndexRegister nnn => setI s nnn
  | .jumpOffset nnn => setPc s ((nnn + s.regs 0) % 65536)
  | .random vx nn => some (setRegister s vx ((ts &&& nn) % 256))
  | .draw vx vy n =>
    if step % 12 ≠ 1 then setPc s (s.pc - 2)
    else
      let s0 := setRegister s 0xF 0
      let loc := s0.iReg
      let x := s0.regs vx % DISPLAY_WIDTH
      let y := s0.regs vy % DISPLAY_HEIGHT
      drawRows x y loc 0 n s0
  | .skipIfKey vx =>
    match REVERSE_KEYPRESS_MAP (s.regs vx) with
    | some keycode =>
      if pressed.contains keycode then setPc s ((s.pc + 2) % 65536) else some s
    | none => some s
  | .skipIfNotKey vx =>
    match REVERSE_KEYPRESS_MAP (s.regs vx) with
    | some keycode =>
      if pressed.contains keycode then some s else setPc s ((s.pc + 2) % 65536)
    | none => none
  | .getDelayTimer vx => some (setRegister s vx s.delayTimer)
  | .setDelayTimer vx => some { s with delayTimer := s.regs vx }
  | .setSoundTimer vx => some { s with soundTimer := s.regs vx }
  | .addToIndex vx => setI s ((s.iReg + s.regs vx) % 65536)
  | .getKey vx =>
    match last.find? (fun k => !(pressed.contains k)) with
    | some key =>
      match KEYPRESS_MAP key with
      | some code => some (setRegister s vx code)
      | none => none
    | none => setPc s (s.pc - 2)
  | .fontCharacter vx => setMemoryU16 s s.iReg ((0x50 + s.regs vx * 5) % 65536)
  | .bcd vx => do
    let v := s.regs vx
    let s1 ← setMemoryU8 s s.iReg (v / 100)
    let s2 ← setMemoryU8 s1 ((s1.iReg + 1) % 65536) (v % 100 / 10)
    setMemoryU8 s2 ((s2.iReg + 2) % 65536) (v % 10)
  | .storeMemory vx => storeLoop 0 (vx + 1) s
  | .loadMemory vx => loadLoop 0 (vx + 1) s
  | .db _ => some s

/-! ### The runtime loop (src/src/run.rs) and debug terminal
(src/src/debug_terminal.rs) -/

/-- Formats a natural the way Rust's lowercase hex specifier does in the
panic messages. -/
def hexStr (n : Nat) : String :=
  "0x" ++ (Nat.toDigits 16 n).asString

/-- Formats a natural the way Rust's zero-padded width-6 uppercase hex
specifier does in the debugger diagnostics. -/
def hexUpper6 (n : Nat) : String :=
  let ds := ((Nat.toDigits 16 n).map Char.toUpper).asString
  "0x" ++ String.mk (List.replicate (4 - ds.length) '0') ++ ds

/-- invalid_instruction (run.rs 411-413): the panic message interpolates
get_i() -- the index register -- and the raw word. -/
def invalidInstructionMessage (s : Chip8State) (w : Nat) : String :=
  "Invalid instruction at " ++ hexStr s.iReg ++ ": " ++ hexStr w

/-- Steps 3-4 of one runtime-loop iteration (run.rs 138-144): fetch the
16-bit word at PC and advance PC by 2 (run.rs `fetch`, 404-409), then
decode; an undecodable word aborts through invalid_instruction.  The
errors model the process-aborting panics. -/
def fetchDecode (s : Chip8State) : Except String (Instruction × Nat × Chip8State) :=
  match getMemoryU16 s s.pc with
  | none => .error "memory address out of range"
  | some w =>
    match setPc s ((s.pc + 2) % 65536) with
    | none => .error "pc out of range"
    | some s1 =>
      match decode w with
      | none => .error (invalidInstructionMessage s1 w)
      | some ins => .ok (ins, w, s1)

/-- Whether `needle` is a prefix of `hay` (over characters). -/
def hasPre : List Char → List Char → Bool
  | _, [] => true
  | [], _ :: _ => false
  | h :: t, n :: nt => h == n && hasPre t nt

/-- Whether `needle` occurs inside `hay` (over characters). -/
def hasSubAux : List Char → List Char → Bool
  | [], needle => hasPre [] needle
  | h :: t, needle => hasPre (h :: t) needle || hasSubAux t needle

/-- Whether the string `needle` occurs inside the string `hay`. -/
def hasSub (hay needle : String) : Bool :=
  hasSubAux hay.toList needle.toList

/-- The j / jump arm of debug_terminal.rs (286-311), entered once the
argument has parsed as the number `addr` (str_to_num yields a usize).  The
first component collects the diagnostics printed; `none` in the second
models the assertion panic inside set_pc.  Note that the source prints the
too-large diagnostic but has no `continue` under it: `set_pc(addr as u16)`
runs unconditionally, so the 16-bit truncation `addr % 65536` reaches the
12-bit assertion. -/
def jumpCommand (addr : Nat) (s : Chip8State) : List String × Option Chip8State :=
  let msgs :=
    if addr &&& 0x0FFF ≠ addr then
      ["address " ++ hexUpper6 addr ++ " is too large to jump to (should be 12 bits)"]
    else []
  (msgs, setPc s (addr % 65536))

/-- The push arm of debug_terminal.rs (512-537): 12-bit check with a soft
failure (diagnostic, state unchanged), then stack_push. -/
def pushCommand (addr : Nat) (s : Chip8State) : Chip8State :=
  if addr &&& 0x0FFF ≠ addr then s else stackPush s (addr % 65536)

/-- The pop arm of debug_terminal.rs (539-558): an empty stack is a soft
error. -/
def popCommand (s : Chip8State) : Chip8State :=
  match stackPop s with
  | none => s
  | some (_, s1) => s1

/-- The set arm of debug_terminal.rs with target pc (435-452): the value is
offset by 2 and checked to 12 bits (soft failure), then set_pc. -/
def setPcCommand (v : Nat) (s : Chip8State) : Option Chip8State :=
  if (v + 2) &&& 0x0FFF ≠ v + 2 then some s else setPc s ((v + 2) % 65536)

/-- The set arm with target i (418-434): 12-bit check (soft), then set_i. -/
def setICommand (v : Nat) (s : Chip8State) : Option Chip8State :=
  if v &&& 0x0FFF ≠ v then some s else setI s (v % 65536)

/-- The set arm with a VX target (389-416): 8-bit check (soft). -/
def setRegCommand (r v : Nat) (s : Chip8State) : Chip8State :=
  if v &&& 0xFF ≠ v then s else setRegister s r (v % 256)

/-- The set arm with an address target (488-508): 12-bit address check and
8-bit value check, both soft. -/
def setMemCommand (a v : Nat) (s : Chip8State) : Option Chip8State :=
  if a &&& 0x0FFF ≠ a then some s
  else if v &&& 0xFF ≠ v then some s
  else setMemoryU8 s (a % 65536) (v % 256)

/-- The set arm with the delay-timer target (453-469): 8-bit check (soft). -/
def setDelayCommand (v : Nat) (s : Chip8State) : Chip8State :=
  if v &&& 0xFF ≠ v then s else { s with delayTimer := v % 256 }

/-- The set arm with the sound-timer target (470-486): 8-bit check (soft). -/
def setSoundCommand (v : Nat) (s : Chip8State) : Chip8State :=
  if v &&& 0xFF ≠ v then s else { s with soundTimer := v % 256 }

/-- One interaction with the machine: a runtime-loop step (fetch, decode,
execute, 60 Hz timer decrement) or a state-mutating debugger command. -/
inductive Event where
  | vmStep (pressed last : List Keycode) (step ts : Nat)
  | dbgJump (addr : Nat)
  | dbgPush (v : Nat)
  | dbgPop
  | dbgSetPc (v : Nat)
  | dbgSetI (v : Nat)
  | dbgSetReg (r v : Nat)
  | dbgSetMem (a v : Nat)
  | dbgSetDelay (v : Nat)
  | dbgSetSound (v : Nat)

/-- Apply one event to the state; `none` models a fatal error (panic).
The vmStep case is run.rs 138-268: fetch/decode, execute, and the every
12th step saturating timer decrement. -/
def stepEvent (s : Chip8State) : Event → Option Chip8State
  | .vmStep pressed last step ts =>
    match fetchDecode s with
    | .error _ => none
    | .ok (ins, _, s1) =>
      match execute ins pressed last step ts s1 with
      | none => none
      | some s2 =>
        some (if step % 12 = 0 then
          { s2 with delayTimer := s2.delayTimer - 1, soundTimer := s2.soundTimer - 1 }
        else s2)
  | .dbgJump a => (jumpCommand a s).2
  | .dbgPush v => some (pushCommand v s)
  | .dbgPop => some (popCommand s)
  | .dbgSetPc v => setPcCommand v s
  | .dbgSetI v => setICommand v s
  | .dbgSetReg r v => some (setRegCommand r v s)
  | .dbgSetMem a v => setMemCommand a v s
  | .dbgSetDelay v => some (setDelayCommand v s)
  | .dbgSetSound v => some (setSoundCommand v s)

/-- Run a sequence of events. -/
def runTrace (events : List Event) (s : Chip8State) : Option Chip8State :=
  match events with
  | [] => some s
  | e :: rest =>
    match stepEvent s e with
    | none => none
    | some s1 => runTrace rest s1

/-- The machine right after initialization (spec section 3 lifecycle): the
font table and ROM are already blitted into memory (the parameter m),
PC = 0x200, everything else zero. -/
def initialized (m : Nat → Nat) : Chip8State :=
  { memory := m, display := fun _ _ => false, pc := 0x200, iReg := 0,
    stack := [], delayTimer := 0, soundTimer := 0, regs := fun _ => 0 }

/-- Address sanity: PC, I and every live stack entry fit in 12 bits. -/
def AddrInv (s : Chip8State) : Prop :=
  s.pc < 0x1000 ∧ s.iReg < 0x1000 ∧ ∀ a ∈ s.stack, a < 0x1000

/-! ### Observation helpers for concrete runs -/

/-- Display pixel of an executor result. -/
def dispAt (o : Option Chip8State) (x y : Nat) : Option Bool :=
  o.map fun s => s.display x y

/-- Register value of an executor result. -/
def regAt (o : Option Chip8State) (r : Nat) : Option Nat :=
  o.map fun s => s.regs r

/-- Memory byte of an executor result. -/
def memAt (o : Option Chip8State) (a : Nat) : Option Nat :=
  o.map fun s => s.memory a

/-- Program counter of an executor result. -/
def pcOf (o : Option Chip8State) : Option Nat :=
  o.map Chip8State.pc

/-- Error message of a fetch/decode result. -/
def errOf (e : Except String (Instruction × Nat × Chip8State)) : Option String :=
  match e with
  | .error m => some m
  | .ok _ => none

/-- The sprite bit of row r, column (offset) c read from memory at loc+r:
column c is drawn by the inner-loop iteration j = 7 - c. -/
def spriteBit (s : Chip8State) (loc r c : Nat) : Bool :=
  (s.memory (loc + r) >>> (7 - c)) &&& 1 == 1

/-! ### Concrete states used by witnesses and counterexamples -/

/-- All-zero machine with PC = 0x200. -/
def zeroState : Chip8State := initialized (fun _ => 0)

/-- V1 = 0xFF, V2 = 0x02 (spec section 8, scenario 2). -/
def stateC1 : Chip8State :=
  { zeroState with regs := fun r => if r = 1 then 0xFF else if r = 2 then 0x02 else 0 }

/-- State with PC = 0x202 (as after a fetch at 0x200). -/
def stateC3 : Chip8State := { zeroState with pc := 0x202 }

/-- VF = 5, I = 0x300, single sprite byte 0x80 at 0x300. -/
def stateC2x : Chip8State :=
  { zeroState with
    iReg := 0x300
    memory := fun a => if a = 0x300 then 0x80 else 0
    regs := fun r => if r = 15 then 5 else 0 }

/-- V1 = 60, I = 0x300, single sprite byte 0xFF at 0x300. -/
def stateC2w : Chip8State :=
  { zeroState with
    iReg := 0x300
    memory := fun a => if a = 0x300 then 0xFF else 0
    regs := fun r => if r = 1 then 60 else 0 }

/-- V0 = 1. -/
def stateC7 : Chip8State :=
  { zeroState with regs := fun r => if r = 0 then 1 else 0 }

/-- V1 = 0x10 (a value above 0x0F), I = 0x300. -/
def stateC8 : Chip8State :=
  { zeroState with
    iReg := 0x300
    regs := fun r => if r = 1 then 0x10 else 0 }

/-- An undecodable word 0xFFFF stored at PC = 0x200, I = 0. -/
def stateC9 : Chip8State :=
  { zeroState with memory := fun a => if a = 0x200 ∨ a = 0x201 then 0xFF else 0 }

/-- A loaded ROM whose first word is 0x1200 (jump 0x200). -/
def romC6 : Nat → Nat := fun a => if a = 0x200 then 0x12 else 0

/-! ### Bit-level helper lemmas
These relate the source's u16 masking (`v & 0xF000`, nibble extraction in
`decode`) to division and remainder, so that `omega` can finish proofs. -/

theorem and_div_two_pow (a b k : Nat) :
    (a &&& b) / 2 ^ k = a / 2 ^ k &&& b / 2 ^ k := by
  induction k with
  | zero => simp
  | succ k ih =>
    rw [pow_succ, ← Nat.div_div_eq_div_mul, ← Nat.div_div_eq_div_mul,
      ← Nat.div_div_eq_div_mul, ih, Nat.and_div_two]

theorem shiftRight_land (a b k : Nat) :
    (a &&& b) >>> k = a >>> k &&& b >>> k := by
  simp [Nat.shiftRight_eq_div_pow, and_div_two_pow]

theorem and_15_eq_mod (w : Nat) : w &&& 15 = w % 16 := by
  have h := Nat.and_pow_two_sub_one_eq_mod w 4
  norm_num at h
  exact h

theorem and_255_eq_mod (w : Nat) : w &&& 255 = w % 256 := by
  have h := Nat.and_pow_two_sub_one_eq_mod w 8
  norm_num at h
  exact h

theorem and_4095_eq_mod (w : Nat) : w &&& 4095 = w % 4096 := by
  have h := Nat.and_pow_two_sub_one_eq_mod w 12
  norm_num at h
  exact h

theorem nib3 (w : Nat) : (w &&& 0xF000) >>> 12 = w / 4096 % 16 := by
  rw [shiftRight_land]
  have h1 : (0xF000 : Nat) >>> 12 = 15 := by decide
  rw [h1, and_15_eq_mod, Nat.shiftRight_eq_div_pow]

theorem nib2 (w : Nat) : (w &&& 0x0F00) >>> 8 = w / 256 % 16 := by
  rw [shiftRight_land]
  have h1 : (0x0F00 : Nat) >>> 8 = 15 := by decide
  rw [h1, and_15_eq_mod, Nat.shiftRight_eq_div_pow]

theorem nib1 (w : Nat) : (w &&& 0x00F0) >>> 4 = w / 16 % 16 := by
  rw [shiftRight_land]
  have h1 : (0x00F0 : Nat) >>> 4 = 15 := by decide
  rw [h1, and_15_eq_mod, Nat.shiftRight_eq_div_pow]

theorem maskF000 (w : Nat) : w &&& 0xF000 = 4096 * (w / 4096 % 16) := by
  have h1 : (w &&& 0xF000) % 4096 = 0 := by
    rw [← and_4095_eq_mod, Nat.and_assoc]
    have h0 : (61440 : Nat) &&& 4095 = 0 := by decide
    rw [h0, Nat.and_zero]
  have h2 : (w &&& 0xF000) / 4096 = w / 4096 % 16 := by
    have h := nib3 w
    rw [Nat.shiftRight_eq_div_pow] at h
    norm_num at h
    exact h
  omega

theorem maskF000_eq_zero_iff {w : Nat} (h : w < 65536) :
    (w &&& 0xF000 = 0) ↔ w < 4096 := by
  rw [maskF000]
  omega

theorem maskF000_eq_zero_of_lt {w : Nat} (h : w < 4096) : w &&& 0xF000 = 0 := by
  rw [maskF000]
  omega

theorem maskFFF_self_iff (w : Nat) : (w &&& 0x0FFF = w) ↔ w < 4096 := by
  rw [and_4095_eq_mod]
  omega

theorem maskFF_self_iff (w : Nat) : (w &&& 0xFF = w) ↔ w < 256 := by
  rw [and_255_eq_mod]
  omega

/-! ### Draw-loop characterization lemmas (execute.rs 165-204) -/

theorem setRegister_regs (s : Chip8State) (reg val r : Nat) :
    (setRegister s reg val).regs r = if r = reg then val else s.regs r := rfl

theorem setRegister_display (s : Chip8State) (reg val : Nat) :
    (setRegister s reg val).display = s.display := rfl

theorem setDisplay_display (s : Chip8State) (x y : Nat) (val : Bool) (a b : Nat) :
    (setDisplay s x y val).display a b = if a = x ∧ b = y then val else s.display a b := rfl

theorem setDisplay_regs (s : Chip8State) (x y : Nat) (val : Bool) :
    (setDisplay s x y val).regs = s.regs := rfl

theorem and_one_cases (v : Nat) : v &&& 1 = 0 ∨ v &&& 1 = 1 := by
  rw [Nat.and_one_is_mod]
  omega

theorem drawPixel_frame (x dy v j : Nat) (s : Chip8State) :
    (drawPixel x dy v j s).memory = s.memory ∧
    (drawPixel x dy v j s).pc = s.pc ∧
    (drawPixel x dy v j s).iReg = s.iReg ∧
    (drawPixel x dy v j s).stack = s.stack ∧
    (drawPixel x dy v j s).delayTimer = s.delayTimer ∧
    (drawPixel x dy v j s).soundTimer = s.soundTimer := by
  unfold drawPixel
  dsimp only
  split_ifs <;> simp [setDisplay, setRegister]

theorem drawPixel_display (x dy v j : Nat) (s : Chip8State) (a b : Nat) :
    (drawPixel x dy v j s).display a b =
      if a = x + 8 - j - 1 ∧ b = dy ∧ x + 8 - j - 1 < 64 ∧ (v >>> j) &&& 1 = 1
      then !(s.display a b) else s.display a b := by
  unfold drawPixel
  dsimp only
  by_cases hclip : DISPLAY_WIDTH ≤ x + 8 - j - 1
  · rw [if_pos hclip, if_neg]
    rintro ⟨-, -, hlt, -⟩
    simp only [DISPLAY_WIDTH] at hclip
    omega
  · rw [if_neg hclip]
    simp only [DISPLAY_WIDTH, not_le] at hclip
    rcases and_one_cases (v >>> j) with hbit | hbit
    · have hns : ((v >>> j) &&& 1 != 0) = false := by simp [hbit]
      rw [hns]
      have hC : ¬(a = x + 8 - j - 1 ∧ b = dy ∧ x + 8 - j - 1 < 64 ∧ (v >>> j) &&& 1 = 1) := by
        rintro ⟨-, -, -, h1⟩
        omega
      simp only [Bool.false_eq_true, if_false, if_neg hC]
    · have hs : ((v >>> j) &&& 1 != 0) = true := by simp [hbit]
      rw [hs, if_pos rfl]
      have hdisp : (if s.display (x + 8 - j - 1) dy = true
            then setRegister (setDisplay s (x + 8 - j - 1) dy ((s.display (x + 8 - j - 1) dy) ^^ true)) 15 1
            else setDisplay s (x + 8 - j - 1) dy ((s.display (x + 8 - j - 1) dy) ^^ true)).display a b =
          (setDisplay s (x + 8 - j - 1) dy ((s.display (x + 8 - j - 1) dy) ^^ true)).display a b := by
        by_cases hd : s.display (x + 8 - j - 1) dy = true
        · rw [if_pos hd, setRegister_display]
        · rw [if_neg hd]
      rw [hdisp, setDisplay_display]
      by_cases hab : a = x + 8 - j - 1 ∧ b = dy
      · have hC : a = x + 8 - j - 1 ∧ b = dy ∧ x + 8 - j - 1 < 64 ∧ (v >>> j) &&& 1 = 1 :=
          ⟨hab.1, hab.2, hclip, hbit⟩
        rw [if_pos hab, if_pos hC, hab.1, hab.2]
        simp
      · have hC : ¬(a = x + 8 - j - 1 ∧ b = dy ∧ x + 8 - j - 1 < 64 ∧ (v >>> j) &&& 1 = 1) :=
          fun h => hab ⟨h.1, h.2.1⟩
        rw [if_neg hab, if_neg hC]

theorem drawPixel_regs (x dy v j : Nat) (s : Chip8State) (r : Nat) :
    (drawPixel x dy v j s).regs r =
      if r = 15 ∧ x + 8 - j - 1 < 64 ∧ (v >>> j) &&& 1 = 1 ∧
          s.display (x + 8 - j - 1) dy = true
      then 1 else s.regs r := by
  unfold drawPixel
  dsimp only
  by_cases hclip : DISPLAY_WIDTH ≤ x + 8 - j - 1
  · rw [if_pos hclip, if_neg]
    rintro ⟨-, hlt, -, -⟩
    simp only [DISPLAY_WIDTH] at hclip
    omega
  · rw [if_neg hclip]
    simp only [DISPLAY_WIDTH, not_le] at hclip
    rcases and_one_cases (v >>> j) with hbit | hbit
    · have hns : ((v >>> j) &&& 1 != 0) = false := by simp [hbit]
      rw [hns]
      have hC : ¬(r = 15 ∧ x + 8 - j - 1 < 64 ∧ (v >>> j) &&& 1 = 1 ∧
          s.display (x + 8 - j - 1) dy = true) := by
        rintro ⟨-, -, h1, -⟩
        omega
      simp only [Bool.false_eq_true, if_false, if_neg hC]
    · have hs : ((v >>> j) &&& 1 != 0) = true := by simp [hbit]
      rw [hs, if_pos rfl]
      by_cases hd : s.display (x + 8 - j - 1) dy = true
      · rw [if_pos hd, setRegister_regs]
        by_cases hr : r = 15
        · have hC : r = 15 ∧ x + 8 - j - 1 < 64 ∧ (v >>> j) &&& 1 = 1 ∧
              s.display (x + 8 - j - 1) dy = true := ⟨hr, hclip, hbit, hd⟩
          rw [if_pos hr, if_pos hC]
        · have hC : ¬(r = 15 ∧ x + 8 - j - 1 < 64 ∧ (v >>> j) &&& 1 = 1 ∧
              s.display (x + 8 - j - 1) dy = true) := fun h => hr h.1
          rw [if_neg hr, setDisplay_regs, if_neg hC]
      · have hC : ¬(r = 15 ∧ x + 8 - j - 1 < 64 ∧ (v >>> j) &&& 1 = 1 ∧
            s.display (x + 8 - j - 1) dy = true) := fun h => hd h.2.2.2
        rw [if_neg hd, setDisplay_regs, if_neg hC]


theorem drawCols_frame (x dy v : Nat) (c : Nat) (s : Chip8State) :
    (drawCols x dy v c s).memory = s.memory ∧
    (drawCols x dy v c s).pc = s.pc ∧
    (drawCols x dy v c s).iReg = s.iReg ∧
    (drawCols x dy v c s).stack = s.stack ∧
    (drawCols x dy v c s).delayTimer = s.delayTimer ∧
    (drawCols x dy v c s).soundTimer = s.soundTimer := by
  induction c generalizing s with
  | zero => exact ⟨rfl, rfl, rfl, rfl, rfl, rfl⟩
  | succ c ih =>
    have hp := drawPixel_frame x dy v c s
    have hcc := ih (drawPixel x dy v c s)
    exact ⟨hcc.1.trans hp.1, hcc.2.1.trans hp.2.1, hcc.2.2.1.trans hp.2.2.1,
      hcc.2.2.2.1.trans hp.2.2.2.1, hcc.2.2.2.2.1.trans hp.2.2.2.2.1,
      hcc.2.2.2.2.2.trans hp.2.2.2.2.2⟩

theorem drawCols_display (x dy v : Nat) (c : Nat) (hc : c ≤ 8) (s : Chip8State) (a b : Nat) :
    (drawCols x dy v c s).display a b =
      if b = dy ∧ ∃ j, j < c ∧ a = x + 8 - j - 1 ∧ a < 64 ∧ (v >>> j) &&& 1 = 1
      then !(s.display a b) else s.display a b := by
  induction c generalizing s with
  | zero =>
    rw [if_neg]
    · rfl
    · rintro ⟨-, j, hj, -⟩
      omega
  | succ c ih =>
    show (drawCols x dy v c (drawPixel x dy v c s)).display a b = _
    rw [ih (by omega) (drawPixel x dy v c s), drawPixel_display]
    by_cases hP : b = dy ∧ ∃ j, j < c ∧ a = x + 8 - j - 1 ∧ a < 64 ∧ (v >>> j) &&& 1 = 1
    · obtain ⟨hb, j, hj, haj, ha64, hbitj⟩ := hP
      have hP' : b = dy ∧ ∃ j, j < c ∧ a = x + 8 - j - 1 ∧ a < 64 ∧ (v >>> j) &&& 1 = 1 :=
        ⟨hb, j, hj, haj, ha64, hbitj⟩
      have hne : ¬(a = x + 8 - c - 1 ∧ b = dy ∧ x + 8 - c - 1 < 64 ∧ (v >>> c) &&& 1 = 1) := by
        rintro ⟨hac, -, -, -⟩
        omega
      have hT : b = dy ∧ ∃ j, j < c + 1 ∧ a = x + 8 - j - 1 ∧ a < 64 ∧ (v >>> j) &&& 1 = 1 :=
        ⟨hb, j, by omega, haj, ha64, hbitj⟩
      rw [if_pos hP', if_neg hne, if_pos hT]
    · rw [if_neg hP]
      by_cases hQ : a = x + 8 - c - 1 ∧ b = dy ∧ x + 8 - c - 1 < 64 ∧ (v >>> c) &&& 1 = 1
      · obtain ⟨hac, hb, h64, hbitc⟩ := hQ
        have hQ' : a = x + 8 - c - 1 ∧ b = dy ∧ x + 8 - c - 1 < 64 ∧ (v >>> c) &&& 1 = 1 :=
          ⟨hac, hb, h64, hbitc⟩
        have hT : b = dy ∧ ∃ j, j < c + 1 ∧ a = x + 8 - j - 1 ∧ a < 64 ∧ (v >>> j) &&& 1 = 1 :=
          ⟨hb, c, by omega, hac, by omega, hbitc⟩
        rw [if_pos hQ', if_pos hT]
      · rw [if_neg hQ, if_neg]
        rintro ⟨hb, j, hj, haj, ha64, hbitj⟩
        rcases Nat.lt_succ_iff_lt_or_eq.mp hj with hlt | heq
        · exact hP ⟨hb, j, hlt, haj, ha64, hbitj⟩
        · subst heq
          exact hQ ⟨haj, hb, by omega, hbitj⟩

theorem drawCols_regs (x dy v : Nat) (c : Nat) (hc : c ≤ 8) (s : Chip8State) (r : Nat) :
    (drawCols x dy v c s).regs r =
      if r = 15 ∧ ∃ j, j < c ∧ x + 8 - j - 1 < 64 ∧ (v >>> j) &&& 1 = 1 ∧
          s.display (x + 8 - j - 1) dy = true
      then 1 else s.regs r := by
  induction c generalizing s with
  | zero =>
    rw [if_neg]
    · rfl
    · rintro ⟨-, j, hj, -⟩
      omega
  | succ c ih =>
    show (drawCols x dy v c (drawPixel x dy v c s)).regs r = _
    rw [ih (by omega) (drawPixel x dy v c s)]
    have hd : ∀ j, j < c →
        (drawPixel x dy v c s).display (x + 8 - j - 1) dy = s.display (x + 8 - j - 1) dy := by
      intro j hj
      rw [drawPixel_display, if_neg]
      rintro ⟨hac, -, -, -⟩
      omega
    have hcond : (r = 15 ∧ ∃ j, j < c ∧ x + 8 - j - 1 < 64 ∧ (v >>> j) &&& 1 = 1 ∧
        (drawPixel x dy v c s).display (x + 8 - j - 1) dy = true) ↔
        (r = 15 ∧ ∃ j, j < c ∧ x + 8 - j - 1 < 64 ∧ (v >>> j) &&& 1 = 1 ∧
        s.display (x + 8 - j - 1) dy = true) := by
      constructor
      · rintro ⟨hr, j, hj, h64, hbit, hdisp⟩
        rw [hd j hj] at hdisp
        exact ⟨hr, j, hj, h64, hbit, hdisp⟩
      · rintro ⟨hr, j, hj, h64, hbit, hdisp⟩
        rw [← hd j hj] at hdisp
        exact ⟨hr, j, hj, h64, hbit, hdisp⟩
    simp only [hcond]
    rw [drawPixel_regs]
    by_cases hP : r = 15 ∧ ∃ j, j < c ∧ x + 8 - j - 1 < 64 ∧ (v >>> j) &&& 1 = 1 ∧
        s.display (x + 8 - j - 1) dy = true
    · obtain ⟨hr, j, hj, h64, hbit, hdisp⟩ := hP
      have hP' : r = 15 ∧ ∃ j, j < c ∧ x + 8 - j - 1 < 64 ∧ (v >>> j) &&& 1 = 1 ∧
          s.display (x + 8 - j - 1) dy = true := ⟨hr, j, hj, h64, hbit, hdisp⟩
      have hT : r = 15 ∧ ∃ j, j < c + 1 ∧ x + 8 - j - 1 < 64 ∧ (v >>> j) &&& 1 = 1 ∧
          s.display (x + 8 - j - 1) dy = true := ⟨hr, j, by omega, h64, hbit, hdisp⟩
      rw [if_pos hP', if_pos hT]
    · rw [if_neg hP]
      by_cases hQ : r = 15 ∧ x + 8 - c - 1 < 64 ∧ (v >>> c) &&& 1 = 1 ∧
          s.display (x + 8 - c - 1) dy = true
      · obtain ⟨hr, h64, hbit, hdisp⟩ := hQ
        have hQ' : r = 15 ∧ x + 8 - c - 1 < 64 ∧ (v >>> c) &&& 1 = 1 ∧
            s.display (x + 8 - c - 1) dy = true := ⟨hr, h64, hbit, hdisp⟩
        have hT : r = 15 ∧ ∃ j, j < c + 1 ∧ x + 8 - j - 1 < 64 ∧ (v >>> j) &&& 1 = 1 ∧
            s.display (x + 8 - j - 1) dy = true := ⟨hr, c, by omega, h64, hbit, hdisp⟩
        rw [if_pos hQ', if_pos hT]
      · rw [if_neg hQ, if_neg]
        rintro ⟨hr, j, hj, h64, hbit, hdisp⟩
        rcases Nat.lt_succ_iff_lt_or_eq.mp hj with hlt | heq
        · exact hP ⟨hr, j, hlt, h64, hbit, hdisp⟩
        · subst heq
          exact hQ ⟨hr, h64, hbit, hdisp⟩


set_option maxHeartbeats 1000000 in
theorem drawRows_spec (x y loc : Nat) (cnt : Nat) (idx : Nat) (s : Chip8State)
    (hmem : loc + idx + cnt ≤ 4096) :
    ∃ s', drawRows x y loc idx cnt s = some s' ∧
      (∀ a b,
        ((∃ t, t < cnt ∧ b = y + idx + t ∧ b < 32 ∧
            ∃ j, j < 8 ∧ a = x + 8 - j - 1 ∧ a < 64 ∧
              (s.memory (loc + idx + t) >>> j) &&& 1 = 1) →
          s'.display a b = !(s.display a b)) ∧
        ((¬∃ t, t < cnt ∧ b = y + idx + t ∧ b < 32 ∧
            ∃ j, j < 8 ∧ a = x + 8 - j - 1 ∧ a < 64 ∧
              (s.memory (loc + idx + t) >>> j) &&& 1 = 1) →
          s'.display a b = s.display a b)) ∧
      (∀ r,
        ((r = 15 ∧ ∃ t, t < cnt ∧ y + idx + t < 32 ∧
            ∃ j, j < 8 ∧ x + 8 - j - 1 < 64 ∧
              (s.memory (loc + idx + t) >>> j) &&& 1 = 1 ∧
              s.display (x + 8 - j - 1) (y + idx + t) = true) →
          s'.regs r = 1) ∧
        ((¬(r = 15 ∧ ∃ t, t < cnt ∧ y + idx + t < 32 ∧
            ∃ j, j < 8 ∧ x + 8 - j - 1 < 64 ∧
              (s.memory (loc + idx + t) >>> j) &&& 1 = 1 ∧
              s.display (x + 8 - j - 1) (y + idx + t) = true)) →
          s'.regs r = s.regs r)) ∧
      s'.memory = s.memory ∧ s'.pc = s.pc ∧ s'.iReg = s.iReg ∧
      s'.stack = s.stack ∧ s'.delayTimer = s.delayTimer ∧ s'.soundTimer = s.soundTimer := by
  induction cnt generalizing idx s with
  | zero =>
    refine ⟨s, rfl, ?_, ?_, rfl, rfl, rfl, rfl, rfl, rfl⟩
    · intro a b
      refine ⟨?_, fun _ => rfl⟩
      rintro ⟨t, ht, -⟩
      omega
    · intro r
      refine ⟨?_, fun _ => rfl⟩
      rintro ⟨-, t, ht, -⟩
      omega
  | succ cnt ih =>
    by_cases h32 : DISPLAY_HEIGHT ≤ y + idx
    · -- row clipped at the bottom edge: no memory read, recurse
      obtain ⟨s', heq, hdisp, hregs, hm, hpc, hi, hst, hdt, hsnd⟩ :=
        ih (idx + 1) s (by omega)
      have h32' : (32 : Nat) ≤ y + idx := h32
      refine ⟨s', ?_, ?_, ?_, hm, hpc, hi, hst, hdt, hsnd⟩
      · show (let dy := y + idx;
          if DISPLAY_HEIGHT ≤ dy then drawRows x y loc (idx + 1) cnt s
          else match getMemoryU8 s ((loc + idx) % 65536) with
            | none => none
            | some v => drawRows x y loc (idx + 1) cnt (drawCols x dy v 8 s)) = some s'
        dsimp only
        rw [if_pos h32]
        exact heq
      · intro a b
        have hco : (∃ t, t < cnt ∧ b = y + (idx + 1) + t ∧ b < 32 ∧
            ∃ j, j < 8 ∧ a = x + 8 - j - 1 ∧ a < 64 ∧
              (s.memory (loc + (idx + 1) + t) >>> j) &&& 1 = 1) ↔
            (∃ t, t < cnt + 1 ∧ b = y + idx + t ∧ b < 32 ∧
            ∃ j, j < 8 ∧ a = x + 8 - j - 1 ∧ a < 64 ∧
              (s.memory (loc + idx + t) >>> j) &&& 1 = 1) := by
          constructor
          · rintro ⟨t, ht, hb, hb32, j, hj, haj, ha64, hbit⟩
            refine ⟨t + 1, by omega, by omega, hb32, j, hj, haj, ha64, ?_⟩
            rw [show loc + idx + (t + 1) = loc + (idx + 1) + t by omega]
            exact hbit
          · rintro ⟨t, ht, hb, hb32, j, hj, haj, ha64, hbit⟩
            rcases t with - | t
            · exfalso
              omega
            · refine ⟨t, by omega, by omega, hb32, j, hj, haj, ha64, ?_⟩
              rw [show loc + (idx + 1) + t = loc + idx + (t + 1) by omega]
              exact hbit
        exact ⟨fun h => (hdisp a b).1 (hco.mpr h),
          fun h => (hdisp a b).2 (fun hc => h (hco.mp hc))⟩
      · intro r
        have hco : (r = 15 ∧ ∃ t, t < cnt ∧ y + (idx + 1) + t < 32 ∧
            ∃ j, j < 8 ∧ x + 8 - j - 1 < 64 ∧
              (s.memory (loc + (idx + 1) + t) >>> j) &&& 1 = 1 ∧
              s.display (x + 8 - j - 1) (y + (idx + 1) + t) = true) ↔
            (r = 15 ∧ ∃ t, t < cnt + 1 ∧ y + idx + t < 32 ∧
            ∃ j, j < 8 ∧ x + 8 - j - 1 < 64 ∧
              (s.memory (loc + idx + t) >>> j) &&& 1 = 1 ∧
              s.display (x + 8 - j - 1) (y + idx + t) = true) := by
          constructor
          · rintro ⟨hr, t, ht, hy32, j, hj, h64, hbit, hd⟩
            refine ⟨hr, t + 1, by omega, by omega, j, hj, h64, ?_, ?_⟩
            · rw [show loc + idx + (t + 1) = loc + (idx + 1) + t by omega]
              exact hbit
            · rw [show y + idx + (t + 1) = y + (idx + 1) + t by omega]
              exact hd
          · rintro ⟨hr, t, ht, hy32, j, hj, h64, hbit, hd⟩
            rcases t with - | t
            · exfalso
              omega
            · refine ⟨hr, t, by omega, by omega, j, hj, h64, ?_, ?_⟩
              · rw [show loc + (idx + 1) + t = loc + idx + (t + 1) by omega]
                exact hbit
              · rw [show y + (idx + 1) + t = y + idx + (t + 1) by omega]
                exact hd
        exact ⟨fun h => (hregs r).1 (hco.mpr h),
          fun h => (hregs r).2 (fun hc => h (hco.mp hc))⟩
    · -- visible row: read the sprite byte, draw the columns, recurse
      have hy : y + idx < 32 := by
        simp only [DISPLAY_HEIGHT, not_le] at h32
        exact h32
      have hget : getMemoryU8 s ((loc + idx) % 65536) = some (s.memory (loc + idx)) := by
        unfold getMemoryU8
        rw [Nat.mod_eq_of_lt (by omega), if_pos (maskF000_eq_zero_of_lt (by omega))]
      obtain ⟨s', heq, hdisp, hregs, hm, hpc, hi, hst, hdt, hsnd⟩ :=
        ih (idx + 1) (drawCols x (y + idx) (s.memory (loc + idx)) 8 s) (by omega)
      have hfr := drawCols_frame x (y + idx) (s.memory (loc + idx)) 8 s
      have hs2mem : (drawCols x (y + idx) (s.memory (loc + idx)) 8 s).memory = s.memory := hfr.1
      rw [hs2mem] at hdisp hregs hm
      have hs2d := drawCols_display x (y + idx) (s.memory (loc + idx)) 8 (by omega) s
      have hs2r := drawCols_regs x (y + idx) (s.memory (loc + idx)) 8 (by omega) s
      have hs2drow : ∀ aa bb, bb ≠ y + idx →
          (drawCols x (y + idx) (s.memory (loc + idx)) 8 s).display aa bb = s.display aa bb := by
        intro aa bb hbb
        rw [hs2d aa bb, if_neg]
        rintro ⟨hbb', -⟩
        exact hbb hbb'
      refine ⟨s', ?_, ?_, ?_, hm, hpc.trans hfr.2.1, hi.trans hfr.2.2.1,
        hst.trans hfr.2.2.2.1, hdt.trans hfr.2.2.2.2.1, hsnd.trans hfr.2.2.2.2.2⟩
      · show (let dy := y + idx;
          if DISPLAY_HEIGHT ≤ dy then drawRows x y loc (idx + 1) cnt s
          else match getMemoryU8 s ((loc + idx) % 65536) with
            | none => none
            | some v => drawRows x y loc (idx + 1) cnt (drawCols x dy v 8 s)) = some s'
        dsimp only
        rw [if_neg h32, hget]
        exact heq
      · intro a b
        constructor
        · rintro ⟨t, ht, hb, hb32, j, hj, haj, ha64, hbit⟩
          rcases t with - | t
          · -- this row draws (a, b)
            have hnIH : ¬∃ t, t < cnt ∧ b = y + (idx + 1) + t ∧ b < 32 ∧
                ∃ j, j < 8 ∧ a = x + 8 - j - 1 ∧ a < 64 ∧
                  (s.memory (loc + (idx + 1) + t) >>> j) &&& 1 = 1 := by
              rintro ⟨t, -, hb', -⟩
              omega
            have hRow : b = y + idx ∧ ∃ j, j < 8 ∧ a = x + 8 - j - 1 ∧ a < 64 ∧
                (s.memory (loc + idx) >>> j) &&& 1 = 1 :=
              ⟨by omega, j, hj, haj, ha64, hbit⟩
            rw [(hdisp a b).2 hnIH, hs2d a b, if_pos hRow,
              show b = y + idx by omega]
          · -- a later row draws (a, b)
            have hIH : ∃ t2, t2 < cnt ∧ b = y + (idx + 1) + t2 ∧ b < 32 ∧
                ∃ j, j < 8 ∧ a = x + 8 - j - 1 ∧ a < 64 ∧
                  (s.memory (loc + (idx + 1) + t2) >>> j) &&& 1 = 1 := by
              refine ⟨t, by omega, by omega, hb32, j, hj, haj, ha64, ?_⟩
              rw [show loc + (idx + 1) + t = loc + idx + (t + 1) by omega]
              exact hbit
            rw [(hdisp a b).1 hIH, hs2drow a b (by omega)]
        · intro hnT
          have hnIH : ¬∃ t, t < cnt ∧ b = y + (idx + 1) + t ∧ b < 32 ∧
              ∃ j, j < 8 ∧ a = x + 8 - j - 1 ∧ a < 64 ∧
                (s.memory (loc + (idx + 1) + t) >>> j) &&& 1 = 1 := by
            rintro ⟨t, ht, hb, hb32, j, hj, haj, ha64, hbit⟩
            refine hnT ⟨t + 1, by omega, by omega, hb32, j, hj, haj, ha64, ?_⟩
            rw [show loc + idx + (t + 1) = loc + (idx + 1) + t by omega]
            exact hbit
          have hnRow : ¬(b = y + idx ∧ ∃ j, j < 8 ∧ a = x + 8 - j - 1 ∧ a < 64 ∧
              (s.memory (loc + idx) >>> j) &&& 1 = 1) := by
            rintro ⟨hb, j, hj, haj, ha64, hbit⟩
            exact hnT ⟨0, by omega, by omega, by omega, j, hj, haj, ha64, hbit⟩
          rw [(hdisp a b).2 hnIH, hs2d a b, if_neg hnRow]
      · intro r
        have hcondR : (r = 15 ∧ ∃ t, t < cnt ∧ y + (idx + 1) + t < 32 ∧
            ∃ j, j < 8 ∧ x + 8 - j - 1 < 64 ∧
              (s.memory (loc + (idx + 1) + t) >>> j) &&& 1 = 1 ∧
              (drawCols x (y + idx) (s.memory (loc + idx)) 8 s).display
                (x + 8 - j - 1) (y + (idx + 1) + t) = true) ↔
            (r = 15 ∧ ∃ t, t < cnt ∧ y + (idx + 1) + t < 32 ∧
            ∃ j, j < 8 ∧ x + 8 - j - 1 < 64 ∧
              (s.memory (loc + (idx + 1) + t) >>> j) &&& 1 = 1 ∧
              s.display (x + 8 - j - 1) (y + (idx + 1) + t) = true) := by
          constructor
          · rintro ⟨hr, t, ht, hy32, j, hj, h64, hbit, hd⟩
            rw [hs2drow _ _ (by omega)] at hd
            exact ⟨hr, t, ht, hy32, j, hj, h64, hbit, hd⟩
          · rintro ⟨hr, t, ht, hy32, j, hj, h64, hbit, hd⟩
            rw [← hs2drow _ _ (by omega)] at hd
            exact ⟨hr, t, ht, hy32, j, hj, h64, hbit, hd⟩
        constructor
        · rintro ⟨hr, t, ht, hy32, j, hj, h64, hbit, hd⟩
          rcases t with - | t
          · -- collision in this row
            have hRR : r = 15 ∧ ∃ j, j < 8 ∧ x + 8 - j - 1 < 64 ∧
                (s.memory (loc + idx) >>> j) &&& 1 = 1 ∧
                s.display (x + 8 - j - 1) (y + idx) = true := by
              refine ⟨hr, j, hj, h64, hbit, ?_⟩
              rw [show y + idx = y + idx + 0 by omega]
              exact hd
            by_cases hIH : r = 15 ∧ ∃ t, t < cnt ∧ y + (idx + 1) + t < 32 ∧
                ∃ j, j < 8 ∧ x + 8 - j - 1 < 64 ∧
                  (s.memory (loc + (idx + 1) + t) >>> j) &&& 1 = 1 ∧
                  (drawCols x (y + idx) (s.memory (loc + idx)) 8 s).display
                    (x + 8 - j - 1) (y + (idx + 1) + t) = true
            · exact (hregs r).1 hIH
            · rw [(hregs r).2 hIH, hs2r r, if_pos hRR]
          · -- collision in a later row
            have hIH2 : r = 15 ∧ ∃ t2, t2 < cnt ∧ y + (idx + 1) + t2 < 32 ∧
                ∃ j, j < 8 ∧ x + 8 - j - 1 < 64 ∧
                  (s.memory (loc + (idx + 1) + t2) >>> j) &&& 1 = 1 ∧
                  s.display (x + 8 - j - 1) (y + (idx + 1) + t2) = true := by
              refine ⟨hr, t, by omega, by omega, j, hj, h64, ?_, ?_⟩
              · rw [show loc + (idx + 1) + t = loc + idx + (t + 1) by omega]
                exact hbit
              · rw [show y + (idx + 1) + t = y + idx + (t + 1) by omega]
                exact hd
            exact (hregs r).1 (hcondR.mpr hIH2)
        · intro hnT
          have hnIH : ¬(r = 15 ∧ ∃ t, t < cnt ∧ y + (idx + 1) + t < 32 ∧
              ∃ j, j < 8 ∧ x + 8 - j - 1 < 64 ∧
                (s.memory (loc + (idx + 1) + t) >>> j) &&& 1 = 1 ∧
                (drawCols x (y + idx) (s.memory (loc + idx)) 8 s).display
                  (x + 8 - j - 1) (y + (idx + 1) + t) = true) := by
            intro hIH
            obtain ⟨hr, t, ht, hy32, j, hj, h64, hbit, hd⟩ := hcondR.mp hIH
            refine hnT ⟨hr, t + 1, by omega, by omega, j, hj, h64, ?_, ?_⟩
            · rw [show loc + idx + (t + 1) = loc + (idx + 1) + t by omega]
              exact hbit
            · rw [show y + idx + (t + 1) = y + (idx + 1) + t by omega]
              exact hd
          have hnRR : ¬(r = 15 ∧ ∃ j, j < 8 ∧ x + 8 - j - 1 < 64 ∧
              (s.memory (loc + idx) >>> j) &&& 1 = 1 ∧
              s.display (x + 8 - j - 1) (y + idx) = true) := by
            rintro ⟨hr, j, hj, h64, hbit, hd⟩
            refine hnT ⟨hr, 0, by omega, by omega, j, hj, h64, hbit, ?_⟩
            rw [show y + idx + 0 = y + idx by omega]
            exact hd
          rw [(hregs r).2 hnIH, hs2r r, if_neg hnRR]

/-! ### C1 - RegAdd (8XY4) -/

/-- C1: the claim says executing RegAdd writes the low 8 bits of the 16-bit
sum of VX and VY into VX (sum modulo 256), so with V1 = 0xFF and V2 = 0x02
executing 8124 should leave V1 = (0xFF + 0x02) % 256 = 0x01.  The source
(execute.rs 111, and identically run.rs 583) computes `sum % 255`:
257 % 255 = 2, so V1 ends up 0x02, not the claimed 0x01 (while VF = 1 as
claimed).  This theorem evaluates the executor at that failing input. -/
theorem regAdd_mod255_bug :
    decode 0x8124 = some (.regAdd 1 2) ∧
    stateC1.regs 1 = 0xFF ∧ stateC1.regs 2 = 0x02 ∧
    regAt (execute (.regAdd 1 2) [] [] 0 0 stateC1) 1 = some 0x02 ∧
    regAt (execute (.regAdd 1 2) [] [] 0 0 stateC1) 15 = some 0x01 ∧
    (0xFF + 0x02) % 256 = 0x01 := by
  decide

/-! ### C3 - Draw vsync gate -/

/-- C3: on a step with step mod 12 different from 1, executing Draw rewinds
PC by 2 (saturating at 0, exactly the source's `saturating_sub`; on a
12-bit PC the subtraction never saturates below 0x1000) and changes
nothing else: display, registers, memory, I, stack and both timers are
left untouched (execute.rs 166-171). -/
theorem draw_vsync_gate (vx vy n : Nat) (pressed last : List Keycode)
    (step ts : Nat) (s : Chip8State)
    (hstep : step % 12 ≠ 1) (hpc : s.pc < 0x1000) :
    ∃ s', execute (.draw vx vy n) pressed last step ts s = some s' ∧
      s'.pc = s.pc - 2 ∧ s'.display = s.display ∧ s'.regs = s.regs ∧
      s'.memory = s.memory ∧ s'.iReg = s.iReg ∧ s'.stack = s.stack ∧
      s'.delayTimer = s.delayTimer ∧ s'.soundTimer = s.soundTimer := by
  refine ⟨{ s with pc := s.pc - 2 }, ?_, rfl, rfl, rfl, rfl, rfl, rfl, rfl, rfl⟩
  simp only [execute, setPc]
  rw [if_pos hstep, if_pos (maskF000_eq_zero_of_lt (by omega))]

/-- C3 witness: the gate at step 2 on a machine paused at PC = 0x202. -/
theorem draw_vsync_gate_witness :
    (2 % 12 ≠ 1) ∧ stateC3.pc < 0x1000 ∧
    (∃ s', execute (.draw 1 2 3) [] [] 2 0 stateC3 = some s' ∧
      s'.pc = stateC3.pc - 2 ∧ s'.display = stateC3.display ∧
      s'.regs = stateC3.regs ∧ s'.memory = stateC3.memory ∧
      s'.iReg = stateC3.iReg ∧ s'.stack = stateC3.stack ∧
      s'.delayTimer = stateC3.delayTimer ∧ s'.soundTimer = stateC3.soundTimer) :=
  ⟨by decide, by decide, draw_vsync_gate 1 2 3 [] [] 2 0 stateC3 (by decide) (by decide)⟩

/-! ### C7 - JumpOffset (BNNN) -/

/-- C7 counterexample: the claim says JumpOffset wraps NNN + V0 to 12 bits,
so with NNN = 0xFFF and V0 = 1 PC should become (0xFFF + 1) % 0x1000 = 0.
Instead set_pc's 12-bit assertion fails (system.rs 92-96) and the process
panics: the executor result is `none`, not a state with PC = 0. -/
theorem jumpOffset_wrap_counterexample :
    stateC7.regs 0 = 1 ∧
    pcOf (execute (.jumpOffset 0xFFF) [] [] 0 0 stateC7) = none ∧
    (0xFFF + 1) % 0x1000 = 0 := by
  decide

/-- C7 amended: executing JumpOffset sets PC to NNN + V0 when that sum fits
in 12 bits, and is a fatal assertion failure (no wrap-around) when the sum
exceeds 0xFFF (execute.rs 151-154 feeding set_pc, system.rs 92-96). -/
theorem jumpOffset_spec (nnn : Nat) (pressed last : List Keycode)
    (step ts : Nat) (s : Chip8State)
    (hnnn : nnn < 0x1000) (hv0 : s.regs 0 < 256) :
    (nnn + s.regs 0 < 0x1000 →
      execute (.jumpOffset nnn) pressed last step ts s =
        some { s with pc := nnn + s.regs 0 }) ∧
    (0x1000 ≤ nnn + s.regs 0 →
      execute (.jumpOffset nnn) pressed last step ts s = none) := by
  constructor <;> intro h <;> simp only [execute, setPc] <;>
    rw [Nat.mod_eq_of_lt (by omega)]
  · rw [if_pos (maskF000_eq_zero_of_lt h)]
  · rw [if_neg]
    intro hmask
    have := (maskF000_eq_zero_iff (by omega)).mp hmask
    omega

/-- C7 witness: NNN = 0x200, V0 = 1, in range. -/
theorem jumpOffset_spec_witness :
    (0x200 : Nat) < 0x1000 ∧ stateC7.regs 0 < 256 ∧
    ((0x200 + stateC7.regs 0 < 0x1000 →
      execute (.jumpOffset 0x200) [] [] 0 0 stateC7 =
        some { stateC7 with pc := 0x200 + stateC7.regs 0 }) ∧
    (0x1000 ≤ 0x200 + stateC7.regs 0 →
      execute (.jumpOffset 0x200) [] [] 0 0 stateC7 = none)) :=
  ⟨by decide, by decide, jumpOffset_spec 0x200 [] [] 0 0 stateC7 (by decide) (by decide)⟩

/-! ### C8 - FontCharacter (FX29) -/

/-- C8 counterexample: the claim masks VX to its low nibble, predicting the
stored word 0x050 + 5 * (VX & 0x0F); the source (execute.rs 252-257) uses
the full byte.  With V1 = 0x10 and I = 0x300 the code stores the word
0x0A0 (bytes 0x00, 0xA0), whereas the claim predicts 0x050: the byte at
I + 1 is 0xA0, not 0x50. -/
theorem fontCharacter_mask_counterexample :
    stateC8.regs 1 = 0x10 ∧
    memAt (execute (.fontCharacter 1) [] [] 0 0 stateC8) 0x300 = some 0x00 ∧
    memAt (execute (.fontCharacter 1) [] [] 0 0 stateC8) 0x301 = some 0xA0 ∧
    0x50 + 5 * (0x10 % 16) = 0x50 ∧ (0xA0 : Nat) ≠ 0x50 := by
  decide

/-- C8 amended: FontCharacter stores at memory[I] the 16-bit big-endian
word 0x050 + 5 * VX for the full byte value of VX (no nibble mask): the
high byte lands at memory[I], the low byte at memory[I+1], no other memory
byte and no register (nor PC, I, stack or timers) changes. -/
theorem fontCharacter_spec (vx : Nat) (pressed last : List Keycode)
    (step ts : Nat) (s : Chip8State)
    (hi : s.iReg + 1 < 0x1000) (hreg : s.regs vx < 256) :
    ∃ s', execute (.fontCharacter vx) pressed last step ts s = some s' ∧
      s'.memory s.iReg = (0x50 + 5 * s.regs vx) / 256 ∧
      s'.memory (s.iReg + 1) = (0x50 + 5 * s.regs vx) % 256 ∧
      (∀ a, a ≠ s.iReg → a ≠ s.iReg + 1 → s'.memory a = s.memory a) ∧
      s'.regs = s.regs ∧ s'.pc = s.pc ∧ s'.iReg = s.iReg ∧
      s'.stack = s.stack ∧ s'.delayTimer = s.delayTimer ∧
      s'.soundTimer = s.soundTimer := by
  have hval : (0x50 + s.regs vx * 5) % 65536 = 0x50 + s.regs vx * 5 :=
    Nat.mod_eq_of_lt (by omega)
  have h1 : s.iReg &&& 0xF000 = 0 := maskF000_eq_zero_of_lt (by omega)
  have h2 : (s.iReg + 1) &&& 0xF000 = 0 := maskF000_eq_zero_of_lt (by omega)
  refine ⟨{ s with memory := fun a => if a = s.iReg + 1 then ((0x50 + s.regs vx * 5) &&& 0xFF) else if a = s.iReg then ((0x50 + s.regs vx * 5) >>> 8) &&& 0xFF else s.memory a }, ?_, ?_, ?_, ?_, rfl, rfl, rfl, rfl, rfl, rfl⟩
  · simp only [execute, setMemoryU16, setMemoryU8, hval, h1, h2, if_true,
      ite_true, Option.bind_eq_bind, Option.some_bind]
  · dsimp only
    rw [if_neg (show s.iReg ≠ s.iReg + 1 by omega), if_pos rfl,
      Nat.shiftRight_eq_div_pow, and_255_eq_mod]
    have h3 : (0x50 + s.regs vx * 5) / 2 ^ 8 < 256 := by
      norm_num
      omega
    rw [Nat.mod_eq_of_lt h3]
    norm_num
    omega
  · dsimp only
    rw [if_pos rfl, and_255_eq_mod]
    omega
  · intro a ha1 ha2
    dsimp only
    rw [if_neg ha2, if_neg ha1]

/-- C8 witness: VX = V1 = 0x10 at I = 0x300. -/
theorem fontCharacter_spec_witness :
    stateC8.iReg + 1 < 0x1000 ∧ stateC8.regs 1 < 256 ∧
    (∃ s', execute (.fontCharacter 1) [] [] 0 0 stateC8 = some s' ∧
      s'.memory stateC8.iReg = (0x50 + 5 * stateC8.regs 1) / 256 ∧
      s'.memory (stateC8.iReg + 1) = (0x50 + 5 * stateC8.regs 1) % 256 ∧
      (∀ a, a ≠ stateC8.iReg → a ≠ stateC8.iReg + 1 → s'.memory a = stateC8.memory a) ∧
      s'.regs = stateC8.regs ∧ s'.pc = stateC8.pc ∧ s'.iReg = stateC8.iReg ∧
      s'.stack = stateC8.stack ∧ s'.delayTimer = stateC8.delayTimer ∧
      s'.soundTimer = stateC8.soundTimer) :=
  ⟨by decide, by decide, fontCharacter_spec 1 [] [] 0 0 stateC8 (by decide) (by decide)⟩

/-! ### C9 - decode-failure diagnostic -/

/-- C9: the claim says the fatal diagnostic for an undecodable fetched word
contains the address the word was fetched from and the raw word.  The
source's invalid_instruction (run.rs 411-413) interpolates `get_i()` -- the
index register -- instead of the fetch address.  With PC = 0x200, I = 0 and
the undecodable word 0xFFFF at 0x200, the emitted message is
"Invalid instruction at 0x0: 0xffff": it contains the raw word but not the
fetch address 0x200. -/
theorem invalid_instruction_reports_i_not_address :
    stateC9.pc = 0x200 ∧ stateC9.iReg = 0 ∧ decode 0xFFFF = none ∧
    errOf (fetchDecode stateC9) = some "Invalid instruction at 0x0: 0xffff" ∧
    hasSub "Invalid instruction at 0x0: 0xffff" (hexStr 0xFFFF) = true ∧
    hasSub "Invalid instruction at 0x0: 0xffff" (hexStr 0x200) = false := by
  decide

/-! ### C10 - debugger jump with an out-of-range address -/

/-- C10: the claim says an out-of-12-bit jump argument is a soft error
(diagnostic, PC unchanged, no termination, back to the prompt).  The
source's jump arm (debug_terminal.rs 286-311) prints the diagnostic but is
missing a `continue`, so `set_pc(addr as u16)` still runs: for `j 0x1000`
the 12-bit assertion in set_pc panics and aborts the process (result
`none`), and for `j 0x10000` the u16 truncation silently sets PC to 0
instead of leaving it at 0x200. -/
theorem debug_jump_out_of_range_bug :
    zeroState.pc = 0x200 ∧
    (jumpCommand 0x1000 zeroState).1 =
      ["address 0x1000 is too large to jump to (should be 12 bits)"] ∧
    pcOf (jumpCommand 0x1000 zeroState).2 = none ∧
    pcOf (jumpCommand 0x10000 zeroState).2 = some 0 := by
  decide

/-! ### C4 - GetKey (FX0A) counterexample -/

/-- C4 counterexample: the claim says GetKey completes exactly when a
release edge exists.  Escape is sampled like any key (the runtime loop
even tests for it), but has no CHIP-8 code: when the previous sample is
[Escape] and the current sample is empty, a release edge exists, yet the
executor panics on `KEYPRESS_MAP.get(key).unwrap()` (execute.rs 247)
instead of completing: the result is `none`, no register is written and no
PC rewind happens. -/
theorem getKey_unmapped_release_counterexample :
    Keycode.escape ∈ [Keycode.escape] ∧
    Keycode.escape ∉ ([] : List Keycode) ∧
    KEYPRESS_MAP .escape = none ∧
    pcOf (execute (.getKey 0) [] [Keycode.escape] 0 0 zeroState) = none := by
  decide

/-! ### C4 - GetKey (FX0A) amended -/

/-- C4 amended: over keyboard samples whose previous sample holds only
mapped keys (keys of the CHIP-8 keypad layout), GetKey completes exactly
when a release edge exists -- a key in the previous sample absent from the
current one -- writing that key's 4-bit code into VX and leaving PC (and
everything except VX) unchanged; with no release edge (newly pressed keys
included) it rewinds PC by 2 and writes no register (execute.rs 244-251).
An unmapped key on the release edge instead panics; see the
counterexample. -/
theorem getKey_release_edge_spec (vx : Nat) (pressed last : List Keycode)
    (step ts : Nat) (s : Chip8State) (hpc : s.pc < 0x1000)
    (hmapped : ∀ k ∈ last, (KEYPRESS_MAP k).isSome) :
    ((∃ k ∈ last, k ∉ pressed) →
      ∃ k code, k ∈ last ∧ k ∉ pressed ∧ KEYPRESS_MAP k = some code ∧
        execute (.getKey vx) pressed last step ts s = some (setRegister s vx code)) ∧
    ((¬ ∃ k ∈ last, k ∉ pressed) →
      execute (.getKey vx) pressed last step ts s = some { s with pc := s.pc - 2 }) := by
  constructor
  · rintro ⟨k0, hk0, hnp0⟩
    cases hfind : last.find? (fun k => !(pressed.contains k)) with
    | none =>
      exfalso
      have hall := List.find?_eq_none.mp hfind k0 hk0
      simp only [Bool.not_eq_true', Bool.not_eq_false] at hall
      exact hnp0 (by simpa using hall)
    | some k =>
      have hmem : k ∈ last := List.mem_of_find?_eq_some hfind
      have hp := List.find?_some hfind
      have hnp : k ∉ pressed := by
        simp only [Bool.not_eq_true'] at hp
        simpa using hp
      obtain ⟨code, hcode⟩ := Option.isSome_iff_exists.mp (hmapped k hmem)
      refine ⟨k, code, hmem, hnp, hcode, ?_⟩
      simp only [execute, hfind, hcode]
  · intro hne
    cases hfind : last.find? (fun k => !(pressed.contains k)) with
    | some k =>
      exact absurd ⟨k, List.mem_of_find?_eq_some hfind,
        by simpa using List.find?_some hfind⟩ hne
    | none =>
      simp only [execute, hfind, setPc]
      rw [if_pos (maskF000_eq_zero_of_lt (by omega))]

/-- C4 witness: previous sample [1-key], current sample empty (a release
edge), and previous sample [1-key] still pressed (no release edge). -/
theorem getKey_release_edge_spec_witness :
    zeroState.pc < 0x1000 ∧ (∀ k ∈ [Keycode.key1], (KEYPRESS_MAP k).isSome) ∧
    (((∃ k ∈ [Keycode.key1], k ∉ ([] : List Keycode)) →
      ∃ k code, k ∈ [Keycode.key1] ∧ k ∉ ([] : List Keycode) ∧
        KEYPRESS_MAP k = some code ∧
        execute (.getKey 0) [] [Keycode.key1] 0 0 zeroState =
          some (setRegister zeroState 0 code)) ∧
    ((¬ ∃ k ∈ [Keycode.key1], k ∉ ([] : List Keycode)) →
      execute (.getKey 0) [] [Keycode.key1] 0 0 zeroState =
        some { zeroState with pc := zeroState.pc - 2 })) :=
  ⟨by decide, by decide,
    getKey_release_edge_spec 0 [] [Keycode.key1] 0 0 zeroState (by decide) (by decide)⟩

/-! ### C5 - codec round-trip counterexample -/

/-- C5 counterexample: the claim says every variant other than Db
round-trips through encode then decode.  ExecuteMachineLanguageRoutine is
such a variant, but decode (src/src/decode.rs) never returns it: its
operand-less `0NNN` encoding decodes to `none` (and 0x00E0 / 0x00EE decode
to Clear / SubroutineReturn), so decode (encode V) is not some V. -/
theorem codec_emlr_counterexample :
    decode (encode .executeMachineLanguageRoutine) = none ∧
    (some Instruction.executeMachineLanguageRoutine ≠ none) := by
  decide

set_option maxHeartbeats 4000000 in
/-- Helper for C5, direction 1: every well-formed variant other than Db and
ExecuteMachineLanguageRoutine decodes back from its encoding. -/
theorem encode_decode_of_wf (i : Instruction) (hwf : wellFormed i)
    (hdb : ∀ v, i ≠ .db v) (hemlr : i ≠ .executeMachineLanguageRoutine) :
    decode (encode i) = some i := by
  cases i with
  | executeMachineLanguageRoutine => exact absurd rfl hemlr
  | clear => decide
  | subroutineReturn => decide
  | jump nnn =>
    simp only [wellFormed] at hwf
    simp only [encode]
    unfold decode
    simp only [nib3, nib2, nib1, and_15_eq_mod, and_255_eq_mod, and_4095_eq_mod]
    rw [show (0x1000 + nnn) / 4096 % 16 = 1 by omega]
    simp only [Option.some.injEq, Instruction.jump.injEq]
    omega
  | subroutineCall nnn =>
    simp only [wellFormed] at hwf
    simp only [encode]
    unfold decode
    simp only [nib3, nib2, nib1, and_15_eq_mod, and_255_eq_mod, and_4095_eq_mod]
    rw [show (0x2000 + nnn) / 4096 % 16 = 2 by omega]
    simp only [Option.some.injEq, Instruction.subroutineCall.injEq]
    omega
  | skipConditional1 vx nn =>
    obtain ⟨h1, h2⟩ := hwf
    simp only [encode]
    unfold decode
    simp only [nib3, nib2, nib1, and_15_eq_mod, and_255_eq_mod, and_4095_eq_mod]
    rw [show (0x3000 + vx * 256 + nn) / 4096 % 16 = 3 by omega]
    simp only [Option.some.injEq, Instruction.skipConditional1.injEq]
    constructor <;> omega
  | skipConditional2 vx nn =>
    obtain ⟨h1, h2⟩ := hwf
    simp only [encode]
    unfold decode
    simp only [nib3, nib2, nib1, and_15_eq_mod, and_255_eq_mod, and_4095_eq_mod]
    rw [show (0x4000 + vx * 256 + nn) / 4096 % 16 = 4 by omega]
    simp only [Option.some.injEq, Instruction.skipConditional2.injEq]
    constructor <;> omega
  | skipConditional3 vx vy =>
    obtain ⟨h1, h2⟩ := hwf
    simp only [encode]
    unfold decode
    simp only [nib3, nib2, nib1, and_15_eq_mod, and_255_eq_mod, and_4095_eq_mod]
    rw [show (0x5000 + vx * 256 + vy * 16) / 4096 % 16 = 5 by omega,
      show (0x5000 + vx * 256 + vy * 16) % 16 = 0 by omega]
    simp only [Option.some.injEq, Instruction.skipConditional3.injEq]
    constructor <;> omega
  | setRegister vx nn =>
    obtain ⟨h1, h2⟩ := hwf
    simp only [encode]
    unfold decode
    simp only [nib3, nib2, nib1, and_15_eq_mod, and_255_eq_mod, and_4095_eq_mod]
    rw [show (0x6000 + vx * 256 + nn) / 4096 % 16 = 6 by omega]
    simp only [Option.some.injEq, Instruction.setRegister.injEq]
    constructor <;> omega
  | add vx nn =>
    obtain ⟨h1, h2⟩ := hwf
    simp only [encode]
    unfold decode
    simp only [nib3, nib2, nib1, and_15_eq_mod, and_255_eq_mod, and_4095_eq_mod]
    rw [show (0x7000 + vx * 256 + nn) / 4096 % 16 = 7 by omega]
    simp only [Option.some.injEq, Instruction.add.injEq]
    constructor <;> omega
  | regSet vx vy =>
    obtain ⟨h1, h2⟩ := hwf
    simp only [encode]
    unfold decode
    simp only [nib3, nib2, nib1, and_15_eq_mod, and_255_eq_mod, and_4095_eq_mod]
    rw [show (0x8000 + vx * 256 + vy * 16) / 4096 % 16 = 8 by omega,
      show (0x8000 + vx * 256 + vy * 16) % 16 = 0 by omega]
    simp only [Option.some.injEq, Instruction.regSet.injEq]
    constructor <;> omega
  | binaryOr vx vy =>
    obtain ⟨h1, h2⟩ := hwf
    simp only [encode]
    unfold decode
    simp only [nib3, nib2, nib1, and_15_eq_mod, and_255_eq_mod, and_4095_eq_mod]
    rw [show (0x8001 + vx * 256 + vy * 16) / 4096 % 16 = 8 by omega,
      show (0x8001 + vx * 256 + vy * 16) % 16 = 1 by omega]
    simp only [Option.some.injEq, Instruction.binaryOr.injEq]
    constructor <;> omega
  | binaryAnd vx vy =>
    obtain ⟨h1, h2⟩ := hwf
    simp only [encode]
    unfold decode
    simp only [nib3, nib2, nib1, and_15_eq_mod, and_255_eq_mod, and_4095_eq_mod]
    rw [show (0x8002 + vx * 256 + vy * 16) / 4096 % 16 = 8 by omega,
      show (0x8002 + vx * 256 + vy * 16) % 16 = 2 by omega]
    simp only [Option.some.injEq, Instruction.binaryAnd.injEq]
    constructor <;> omega
  | binaryXor vx vy =>
    obtain ⟨h1, h2⟩ := hwf
    simp only [encode]
    unfold decode
    simp only [nib3, nib2, nib1, and_15_eq_mod, and_255_eq_mod, and_4095_eq_mod]
    rw [show (0x8003 + vx * 256 + vy * 16) / 4096 % 16 = 8 by omega,
      show (0x8003 + vx * 256 + vy * 16) % 16 = 3 by omega]
    simp only [Option.some.injEq, Instruction.binaryXor.injEq]
    constructor <;> omega
  | regAdd vx vy =>
    obtain ⟨h1, h2⟩ := hwf
    simp only [encode]
    unfold decode
    simp only [nib3, nib2, nib1, and_15_eq_mod, and_255_eq_mod, and_4095_eq_mod]
    rw [show (0x8004 + vx * 256 + vy * 16) / 4096 % 16 = 8 by omega,
      show (0x8004 + vx * 256 + vy * 16) % 16 = 4 by omega]
    simp only [Option.some.injEq, Instruction.regAdd.injEq]
    constructor <;> omega
  | subtract1 vx vy =>
    obtain ⟨h1, h2⟩ := hwf
    simp only [encode]
    unfold decode
    simp only [nib3, nib2, nib1, and_15_eq_mod, and_255_eq_mod, and_4095_eq_mod]
    rw [show (0x8005 + vx * 256 + vy * 16) / 4096 % 16 = 8 by omega,
      show (0x8005 + vx * 256 + vy * 16) % 16 = 5 by omega]
    simp only [Option.some.injEq, Instruction.subtract1.injEq]
    constructor <;> omega
  | shiftRight vx vy =>
    obtain ⟨h1, h2⟩ := hwf
    simp only [encode]
    unfold decode
    simp only [nib3, nib2, nib1, and_15_eq_mod, and_255_eq_mod, and_4095_eq_mod]
    rw [show (0x8006 + vx * 256 + vy * 16) / 4096 % 16 = 8 by omega,
      show (0x8006 + vx * 256 + vy * 16) % 16 = 6 by omega]
    simp only [Option.some.injEq, Instruction.shiftRight.injEq]
    constructor <;> omega
  | subtract2 vx vy =>
    obtain ⟨h1, h2⟩ := hwf
    simp only [encode]
    unfold decode
    simp only [nib3, nib2, nib1, and_15_eq_mod, and_255_eq_mod, and_4095_eq_mod]
    rw [show (0x8007 + vx * 256 + vy * 16) / 4096 % 16 = 8 by omega,
      show (0x8007 + vx * 256 + vy * 16) % 16 = 7 by omega]
    simp only [Option.some.injEq, Instruction.subtract2.injEq]
    constructor <;> omega
  | shiftLeft vx vy =>
    obtain ⟨h1, h2⟩ := hwf
    simp only [encode]
    unfold decode
    simp only [nib3, nib2, nib1, and_15_eq_mod, and_255_eq_mod, and_4095_eq_mod]
    rw [show (0x800E + vx * 256 + vy * 16) / 4096 % 16 = 8 by omega,
      show (0x800E + vx * 256 + vy * 16) % 16 = 14 by omega]
    simp only [Option.some.injEq, Instruction.shiftLeft.injEq]
    constructor <;> omega
  | skipConditional4 vx vy =>
    obtain ⟨h1, h2⟩ := hwf
    simp only [encode]
    unfold decode
    simp only [nib3, nib2, nib1, and_15_eq_mod, and_255_eq_mod, and_4095_eq_mod]
    rw [show (0x9000 + vx * 256 + vy * 16) / 4096 % 16 = 9 by omega,
      show (0x9000 + vx * 256 + vy * 16) % 16 = 0 by omega]
    simp only [Option.some.injEq, Instruction.skipConditional4.injEq]
    constructor <;> omega
  | setIndexRegister nnn =>
    simp only [wellFormed] at hwf
    simp only [encode]
    unfold decode
    simp only [nib3, nib2, nib1, and_15_eq_mod, and_255_eq_mod, and_4095_eq_mod]
    rw [show (0xA000 + nnn) / 4096 % 16 = 10 by omega]
    simp only [Option.some.injEq, Instruction.setIndexRegister.injEq]
    omega
  | jumpOffset nnn =>
    simp only [wellFormed] at hwf
    simp only [encode]
    unfold decode
    simp only [nib3, nib2, nib1, and_15_eq_mod, and_255_eq_mod, and_4095_eq_mod]
    rw [show (0xB000 + nnn) / 4096 % 16 = 11 by omega]
    simp only [Option.some.injEq, Instruction.jumpOffset.injEq]
    omega
  | random vx nn =>
    obtain ⟨h1, h2⟩ := hwf
    simp only [encode]
    unfold decode
    simp only [nib3, nib2, nib1, and_15_eq_mod, and_255_eq_mod, and_4095_eq_mod]
    rw [show (0xC000 + vx * 256 + nn) / 4096 % 16 = 12 by omega]
    simp only [Option.some.injEq, Instruction.random.injEq]
    constructor <;> omega
  | draw vx vy n =>
    obtain ⟨h1, h2, h3⟩ := hwf
    simp only [encode]
    unfold decode
    simp only [nib3, nib2, nib1, and_15_eq_mod, and_255_eq_mod, and_4095_eq_mod]
    rw [show (0xD000 + vx * 256 + vy * 16 + n) / 4096 % 16 = 13 by omega]
    simp only [Option.some.injEq, Instruction.draw.injEq]
    refine ⟨?_, ?_, ?_⟩ <;> omega
  | skipIfKey vx =>
    simp only [wellFormed] at hwf
    simp only [encode]
    unfold decode
    simp only [nib3, nib2, nib1, and_15_eq_mod, and_255_eq_mod, and_4095_eq_mod]
    rw [show (0xE09E + vx * 256) / 4096 % 16 = 14 by omega,
      show (0xE09E + vx * 256) % 256 = 0x9E by omega]
    simp only [Option.some.injEq, Instruction.skipIfKey.injEq]
    omega
  | skipIfNotKey vx =>
    simp only [wellFormed] at hwf
    simp only [encode]
    unfold decode
    simp only [nib3, nib2, nib1, and_15_eq_mod, and_255_eq_mod, and_4095_eq_mod]
    rw [show (0xE0A1 + vx * 256) / 4096 % 16 = 14 by omega,
      show (0xE0A1 + vx * 256) % 256 = 0xA1 by omega]
    simp only [Option.some.injEq, Instruction.skipIfNotKey.injEq]
    omega
  | getDelayTimer vx =>
    simp only [wellFormed] at hwf
    simp only [encode]
    unfold decode
    simp only [nib3, nib2, nib1, and_15_eq_mod, and_255_eq_mod, and_4095_eq_mod]
    rw [show (0xF007 + vx * 256) / 4096 % 16 = 15 by omega,
      show (0xF007 + vx * 256) % 256 = 0x07 by omega]
    simp only [Option.some.injEq, Instruction.getDelayTimer.injEq]
    omega
  | getKey vx =>
    simp only [wellFormed] at hwf
    simp only [encode]
    unfold decode
    simp only [nib3, nib2, nib1, and_15_eq_mod, and_255_eq_mod, and_4095_eq_mod]
    rw [show (0xF00A + vx * 256) / 4096 % 16 = 15 by omega,
      show (0xF00A + vx * 256) % 256 = 0x0A by omega]
    simp only [Option.some.injEq, Instruction.getKey.injEq]
    omega
  | setDelayTimer vx =>
    simp only [wellFormed] at hwf
    simp only [encode]
    unfold decode
    simp only [nib3, nib2, nib1, and_15_eq_mod, and_255_eq_mod, and_4095_eq_mod]
    rw [show (0xF015 + vx * 256) / 4096 % 16 = 15 by omega,
      show (0xF015 + vx * 256) % 256 = 0x15 by omega]
    simp only [Option.some.injEq, Instruction.setDelayTimer.injEq]
    omega
  | setSoundTimer vx =>
    simp only [wellFormed] at hwf
    simp only [encode]
    unfold decode
    simp only [nib3, nib2, nib1, and_15_eq_mod, and_255_eq_mod, and_4095_eq_mod]
    rw [show (0xF018 + vx * 256) / 4096 % 16 = 15 by omega,
      show (0xF018 + vx * 256) % 256 = 0x18 by omega]
    simp only [Option.some.injEq, Instruction.setSoundTimer.injEq]
    omega
  | addToIndex vx =>
    simp only [wellFormed] at hwf
    simp only [encode]
    unfold decode
    simp only [nib3, nib2, nib1, and_15_eq_mod, and_255_eq_mod, and_4095_eq_mod]
    rw [show (0xF01E + vx * 256) / 4096 % 16 = 15 by omega,
      show (0xF01E + vx * 256) % 256 = 0x1E by omega]
    simp only [Option.some.injEq, Instruction.addToIndex.injEq]
    omega
  | fontCharacter vx =>
    simp only [wellFormed] at hwf
    simp only [encode]
    unfold decode
    simp only [nib3, nib2, nib1, and_15_eq_mod, and_255_eq_mod, and_4095_eq_mod]
    rw [show (0xF029 + vx * 256) / 4096 % 16 = 15 by omega,
      show (0xF029 + vx * 256) % 256 = 0x29 by omega]
    simp only [Option.some.injEq, Instruction.fontCharacter.injEq]
    omega
  | bcd vx =>
    simp only [wellFormed] at hwf
    simp only [encode]
    unfold decode
    simp only [nib3, nib2, nib1, and_15_eq_mod, and_255_eq_mod, and_4095_eq_mod]
    rw [show (0xF033 + vx * 256) / 4096 % 16 = 15 by omega,
      show (0xF033 + vx * 256) % 256 = 0x33 by omega]
    simp only [Option.some.injEq, Instruction.bcd.injEq]
    omega
  | storeMemory vx =>
    simp only [wellFormed] at hwf
    simp only [encode]
    unfold decode
    simp only [nib3, nib2, nib1, and_15_eq_mod, and_255_eq_mod, and_4095_eq_mod]
    rw [show (0xF055 + vx * 256) / 4096 % 16 = 15 by omega,
      show (0xF055 + vx * 256) % 256 = 0x55 by omega]
    simp only [Option.some.injEq, Instruction.storeMemory.injEq]
    omega
  | loadMemory vx =>
    simp only [wellFormed] at hwf
    simp only [encode]
    unfold decode
    simp only [nib3, nib2, nib1, and_15_eq_mod, and_255_eq_mod, and_4095_eq_mod]
    rw [show (0xF065 + vx * 256) / 4096 % 16 = 15 by omega,
      show (0xF065 + vx * 256) % 256 = 0x65 by omega]
    simp only [Option.some.injEq, Instruction.loadMemory.injEq]
    omega
  | db v => exact absurd rfl (hdb v)

set_option maxHeartbeats 2000000 in
/-- Helper for C5, direction 2: every 16-bit word that decodes re-encodes
to itself, by cases on the nibble partition of decode. -/
theorem decode_encode_of_some {w : Nat} (hw : w < 65536) {i : Instruction}
    (hi : decode w = some i) : encode i = w := by
  unfold decode at hi
  simp only [nib3, nib2, nib1, and_15_eq_mod, and_255_eq_mod, and_4095_eq_mod] at hi
  split at hi <;>
    first
    | exact Option.noConfusion hi
    | (injection hi with h; subst h; simp only [encode]; omega)
    | (split at hi <;>
        first
        | exact Option.noConfusion hi
        | (injection hi with h; subst h; simp only [encode]; omega)
        | (split at hi <;>
            first
            | exact Option.noConfusion hi
            | (injection hi with h; subst h; simp only [encode]; omega)
            | (split at hi <;>
                first
                | exact Option.noConfusion hi
                | (injection hi with h; subst h; simp only [encode]; omega))))

/-- C5 amended: the round-trip holds with ExecuteMachineLanguageRoutine
excluded along with Db: for every well-formed variant V other than Db and
ExecuteMachineLanguageRoutine, decode (encode V) = V (decode never returns
either of those two variants), and for every 16-bit word W that decodes to
an instruction I, encode I = W. -/
theorem codec_roundtrip :
    (∀ i : Instruction, wellFormed i → (∀ v, i ≠ .db v) →
      i ≠ .executeMachineLanguageRoutine → decode (encode i) = some i) ∧
    (∀ w, w < 65536 → ∀ i, decode w = some i → encode i = w) :=
  ⟨encode_decode_of_wf, fun _ hw _ hi => decode_encode_of_some hw hi⟩

/-- C5 witness: both directions at the jump instruction 0x1200. -/
theorem codec_roundtrip_witness :
    wellFormed (.jump 0x200) ∧
    decode (encode (.jump 0x200)) = some (.jump 0x200) ∧
    (0x1200 : Nat) < 65536 ∧ decode 0x1200 = some (.jump 0x200) ∧
    encode (.jump 0x200) = 0x1200 :=
  ⟨by show (0x200 : Nat) < 4096; decide,
    codec_roundtrip.1 (.jump 0x200) (by show (0x200 : Nat) < 4096; decide)
      (fun v h => Instruction.noConfusion h) (fun h => Instruction.noConfusion h),
    by decide,
    by decide,
    codec_roundtrip.2 0x1200 (by decide) (.jump 0x200) (by decide)⟩

/-! ### C2 - Draw (DXYN) on a vsync step -/

set_option maxHeartbeats 1000000 in
/-- C2 amended: on a vsync step (step mod 12 = 1), with VX and VY both
different from VF (the source zeroes VF before reading the base
coordinates) and the sprite rows inside memory, Draw XORs each set sprite
bit onto the display at base (VX mod 64, VY mod 32), clips at the right
and bottom edges with no wrap (only positions with a < 64 and b < 32
change - at x = 60 a width-8 sprite touches only columns 60-63), leaves
all other pixels and registers unchanged, sets VF to 1 if some drawn
sprite bit lands on a lit pixel and to 0 otherwise, and leaves memory,
PC, I, stack and timers untouched. -/
theorem draw_spec (vx vy n : Nat) (pressed last : List Keycode)
    (step ts : Nat) (s : Chip8State)
    (hvx : vx < 15) (hvy : vy < 15)
    (hstep : step % 12 = 1) (hmem : s.iReg + n ≤ 4096) :
    ∃ s', execute (.draw vx vy n) pressed last step ts s = some s' ∧
      (∀ a b,
        ((∃ r c, r < n ∧ c < 8 ∧ a = s.regs vx % 64 + c ∧ b = s.regs vy % 32 + r ∧
            a < 64 ∧ b < 32 ∧ spriteBit s s.iReg r c = true) →
          s'.display a b = !(s.display a b)) ∧
        ((¬∃ r c, r < n ∧ c < 8 ∧ a = s.regs vx % 64 + c ∧ b = s.regs vy % 32 + r ∧
            a < 64 ∧ b < 32 ∧ spriteBit s s.iReg r c = true) →
          s'.display a b = s.display a b)) ∧
      ((∃ r c, r < n ∧ c < 8 ∧ s.regs vx % 64 + c < 64 ∧ s.regs vy % 32 + r < 32 ∧
          spriteBit s s.iReg r c = true ∧
          s.display (s.regs vx % 64 + c) (s.regs vy % 32 + r) = true) →
        s'.regs 15 = 1) ∧
      ((¬∃ r c, r < n ∧ c < 8 ∧ s.regs vx % 64 + c < 64 ∧ s.regs vy % 32 + r < 32 ∧
          spriteBit s s.iReg r c = true ∧
          s.display (s.regs vx % 64 + c) (s.regs vy % 32 + r) = true) →
        s'.regs 15 = 0) ∧
      (∀ r, r ≠ 15 → s'.regs r = s.regs r) ∧
      s'.memory = s.memory ∧ s'.pc = s.pc ∧ s'.iReg = s.iReg ∧
      s'.stack = s.stack ∧ s'.delayTimer = s.delayTimer ∧ s'.soundTimer = s.soundTimer := by
  obtain ⟨s', heq, hdisp, hregs, hm, hpc, hi, hst, hdt, hsnd⟩ :=
    drawRows_spec (s.regs vx % 64) (s.regs vy % 32) s.iReg n 0 (setRegister s 15 0)
      (by omega)
  refine ⟨s', ?_, ?_, ?_, ?_, ?_, hm, hpc, hi, hst, hdt, hsnd⟩
  · simp only [execute]
    rw [if_neg (show ¬ step % 12 ≠ 1 from fun h => h hstep)]
    rw [show (setRegister s 15 0).regs vx % DISPLAY_WIDTH = s.regs vx % 64 from by
          rw [setRegister_regs, if_neg (by omega)]; exact rfl,
        show (setRegister s 15 0).regs vy % DISPLAY_HEIGHT = s.regs vy % 32 from by
          rw [setRegister_regs, if_neg (by omega)]; exact rfl]
    exact heq
  · intro a b
    have hco : (∃ t, t < n ∧ b = s.regs vy % 32 + 0 + t ∧ b < 32 ∧
        ∃ j, j < 8 ∧ a = s.regs vx % 64 + 8 - j - 1 ∧ a < 64 ∧
          ((setRegister s 15 0).memory (s.iReg + 0 + t) >>> j) &&& 1 = 1) ↔
        (∃ r c, r < n ∧ c < 8 ∧ a = s.regs vx % 64 + c ∧ b = s.regs vy % 32 + r ∧
          a < 64 ∧ b < 32 ∧ spriteBit s s.iReg r c = true) := by
      constructor
      · rintro ⟨t, ht, hb, hb32, j, hj, haj, ha64, hbit⟩
        refine ⟨t, 7 - j, ht, by omega, by omega, by omega, ha64, hb32, ?_⟩
        simp only [spriteBit, beq_iff_eq]
        rw [show 7 - (7 - j) = j from by omega]
        exact hbit
      · rintro ⟨r, c, hr, hc, hac, hbr, ha64, hb32, hbit⟩
        simp only [spriteBit, beq_iff_eq] at hbit
        exact ⟨r, hr, by omega, hb32, 7 - c, by omega, by omega, ha64, hbit⟩
    exact ⟨fun h => (hdisp a b).1 (hco.mpr h),
      fun h => (hdisp a b).2 (fun hc => h (hco.mp hc))⟩
  · intro h
    refine (hregs 15).1 ⟨rfl, ?_⟩
    obtain ⟨r, c, hr, hc, ha64, hb32, hbit, hd⟩ := h
    simp only [spriteBit, beq_iff_eq] at hbit
    refine ⟨r, hr, hb32, 7 - c, by omega, by omega, ?_, ?_⟩
    · rw [show 7 - c = 7 - c from rfl]
      exact hbit
    · show (setRegister s 15 0).display (s.regs vx % 64 + 8 - (7 - c) - 1)
        (s.regs vy % 32 + 0 + r) = true
      rw [setRegister_display,
        show s.regs vx % 64 + 8 - (7 - c) - 1 = s.regs vx % 64 + c from by omega]
      exact hd
  · intro h
    have hn : ¬(15 = 15 ∧ ∃ t, t < n ∧ s.regs vy % 32 + 0 + t < 32 ∧
        ∃ j, j < 8 ∧ s.regs vx % 64 + 8 - j - 1 < 64 ∧
          ((setRegister s 15 0).memory (s.iReg + 0 + t) >>> j) &&& 1 = 1 ∧
          (setRegister s 15 0).display (s.regs vx % 64 + 8 - j - 1)
            (s.regs vy % 32 + 0 + t) = true) := by
      rintro ⟨-, t, ht, hb32, j, hj, ha64, hbit, hd⟩
      refine h ⟨t, 7 - j, ht, by omega, by omega, by omega, ?_, ?_⟩
      · simp only [spriteBit, beq_iff_eq]
        rw [show 7 - (7 - j) = j from by omega]
        exact hbit
      · rw [show s.regs vx % 64 + (7 - j) = s.regs vx % 64 + 8 - j - 1 from by omega,
          show s.regs vy % 32 + t = s.regs vy % 32 + 0 + t from by omega]
        exact hd
    rw [(hregs 15).2 hn, setRegister_regs, if_pos rfl]
  · intro r hr
    have hn : ¬(r = 15 ∧ ∃ t, t < n ∧ s.regs vy % 32 + 0 + t < 32 ∧
        ∃ j, j < 8 ∧ s.regs vx % 64 + 8 - j - 1 < 64 ∧
          ((setRegister s 15 0).memory (s.iReg + 0 + t) >>> j) &&& 1 = 1 ∧
          (setRegister s 15 0).display (s.regs vx % 64 + 8 - j - 1)
            (s.regs vy % 32 + 0 + t) = true) := by
      rintro ⟨hr15, -⟩
      exact hr hr15
    rw [(hregs r).2 hn, setRegister_regs, if_neg hr]

/-- C2 counterexample: the claim takes the draw base x from VX mod 64, but
the source zeroes VF before reading the base registers (execute.rs 167,
172-175), so Draw with VX = VF uses 0, not the old VF. On a machine with
VF = 5 and a single sprite bit in column 0, `draw 15 0 1` on a vsync step
flips pixel (0,0); the claim requires it to flip (5,0) instead. -/
theorem draw_vf_base_counterexample :
    stateC2x.regs 15 = 5 ∧
    spriteBit stateC2x stateC2x.iReg 0 0 = true ∧
    dispAt (execute (.draw 15 0 1) [] [] 1 0 stateC2x) 0 0 = some true ∧
    dispAt (execute (.draw 15 0 1) [] [] 1 0 stateC2x) 5 0 = some false := by
  decide

/-- C2 witness: draw_spec on the spec section 8 clipping scenario - V1 = 60,
one 0xFF sprite row - with concrete hypotheses discharged; the clipping is
visible in the amended statement as the `a < 64` bound. -/
theorem draw_spec_witness :
    (1 : Nat) < 15 ∧ (0 : Nat) < 15 ∧ 1 % 12 = 1 ∧ stateC2w.iReg + 1 ≤ 4096 ∧
    (∃ s', execute (.draw 1 0 1) [] [] 1 0 stateC2w = some s' ∧
      (∀ a b,
        ((∃ r c, r < 1 ∧ c < 8 ∧ a = stateC2w.regs 1 % 64 + c ∧
            b = stateC2w.regs 0 % 32 + r ∧
            a < 64 ∧ b < 32 ∧ spriteBit stateC2w stateC2w.iReg r c = true) →
          s'.display a b = !(stateC2w.display a b)) ∧
        ((¬∃ r c, r < 1 ∧ c < 8 ∧ a = stateC2w.regs 1 % 64 + c ∧
            b = stateC2w.regs 0 % 32 + r ∧
            a < 64 ∧ b < 32 ∧ spriteBit stateC2w stateC2w.iReg r c = true) →
          s'.display a b = stateC2w.display a b)) ∧
      ((∃ r c, r < 1 ∧ c < 8 ∧ stateC2w.regs 1 % 64 + c < 64 ∧
          stateC2w.regs 0 % 32 + r < 32 ∧
          spriteBit stateC2w stateC2w.iReg r c = true ∧
          stateC2w.display (stateC2w.regs 1 % 64 + c) (stateC2w.regs 0 % 32 + r) = true) →
        s'.regs 15 = 1) ∧
      ((¬∃ r c, r < 1 ∧ c < 8 ∧ stateC2w.regs 1 % 64 + c < 64 ∧
          stateC2w.regs 0 % 32 + r < 32 ∧
          spriteBit stateC2w stateC2w.iReg r c = true ∧
          stateC2w.display (stateC2w.regs 1 % 64 + c) (stateC2w.regs 0 % 32 + r) = true) →
        s'.regs 15 = 0) ∧
      (∀ r, r ≠ 15 → s'.regs r = stateC2w.regs r) ∧
      s'.memory = stateC2w.memory ∧ s'.pc = stateC2w.pc ∧ s'.iReg = stateC2w.iReg ∧
      s'.stack = stateC2w.stack ∧ s'.delayTimer = stateC2w.delayTimer ∧
      s'.soundTimer = stateC2w.soundTimer) :=
  ⟨by decide, by decide, by decide, by decide,
    draw_spec 1 0 1 [] [] 1 0 stateC2w (by decide) (by decide) (by decide) (by decide)⟩

/-! ### Address-invariant lemmas (system.rs 92-129 and the runtime loop) -/

theorem setPc_addrInv {s s' : Chip8State} {v : Nat} (hiR : s.iReg < 0x1000)
    (hstk : ∀ a ∈ s.stack, a < 0x1000) (hv : v < 65536)
    (h : setPc s v = some s') : AddrInv s' := by
  unfold setPc at h
  by_cases hm : v &&& 0xF000 = 0
  · rw [if_pos hm] at h
    injection h with h
    subst h
    exact ⟨(maskF000_eq_zero_iff hv).mp hm, hiR, hstk⟩
  · rw [if_neg hm] at h
    exact Option.noConfusion h

theorem setI_addrInv {s s' : Chip8State} {v : Nat} (hpc : s.pc < 0x1000)
    (hstk : ∀ a ∈ s.stack, a < 0x1000) (hv : v < 65536)
    (h : setI s v = some s') : AddrInv s' := by
  unfold setI at h
  by_cases hm : v &&& 0xF000 = 0
  · rw [if_pos hm] at h
    injection h with h
    subst h
    exact ⟨hpc, (maskF000_eq_zero_iff hv).mp hm, hstk⟩
  · rw [if_neg hm] at h
    exact Option.noConfusion h

theorem setMemoryU8_frame_of_some {s s' : Chip8State} {a v : Nat}
    (h : setMemoryU8 s a v = some s') :
    s'.pc = s.pc ∧ s'.iReg = s.iReg ∧ s'.stack = s.stack := by
  unfold setMemoryU8 at h
  split at h
  · injection h with h
    subst h
    exact ⟨rfl, rfl, rfl⟩
  · exact Option.noConfusion h

theorem setMemoryU16_frame_of_some {s s' : Chip8State} {a v : Nat}
    (h : setMemoryU16 s a v = some s') :
    s'.pc = s.pc ∧ s'.iReg = s.iReg ∧ s'.stack = s.stack := by
  unfold setMemoryU16 at h
  split at h
  · cases hm1 : setMemoryU8 s a ((v >>> 8) &&& 0x00FF) with
    | none =>
      rw [hm1] at h
      exact Option.noConfusion h
    | some s1 =>
      rw [hm1] at h
      replace h : setMemoryU8 s1 (a + 1) (v &&& 0x00FF) = some s' := h
      obtain ⟨f1, f2, f3⟩ := setMemoryU8_frame_of_some hm1
      obtain ⟨g1, g2, g3⟩ := setMemoryU8_frame_of_some h
      exact ⟨g1.trans f1, g2.trans f2, g3.trans f3⟩
  · exact Option.noConfusion h

theorem foldl_setDisplay_frame (i : Nat) (l : List Nat) (s : Chip8State) :
    (l.foldl (fun t j => setDisplay t i j false) s).pc = s.pc ∧
    (l.foldl (fun t j => setDisplay t i j false) s).iReg = s.iReg ∧
    (l.foldl (fun t j => setDisplay t i j false) s).stack = s.stack := by
  induction l generalizing s with
  | nil => exact ⟨rfl, rfl, rfl⟩
  | cons j t ih =>
    simp only [List.foldl_cons]
    exact ih (setDisplay s i j false)

theorem clearColumn_frame (s : Chip8State) (i : Nat) :
    (clearColumn s i).pc = s.pc ∧ (clearColumn s i).iReg = s.iReg ∧
    (clearColumn s i).stack = s.stack :=
  foldl_setDisplay_frame i (List.range DISPLAY_HEIGHT) s

theorem foldl_clearColumn_frame (l : List Nat) (s : Chip8State) :
    (l.foldl clearColumn s).pc = s.pc ∧
    (l.foldl clearColumn s).iReg = s.iReg ∧
    (l.foldl clearColumn s).stack = s.stack := by
  induction l generalizing s with
  | nil => exact ⟨rfl, rfl, rfl⟩
  | cons i t ih =>
    simp only [List.foldl_cons]
    have h1 := clearColumn_frame s i
    have h2 := ih (clearColumn s i)
    exact ⟨h2.1.trans h1.1, h2.2.1.trans h1.2.1, h2.2.2.trans h1.2.2⟩

theorem clearScreen_frame (s : Chip8State) :
    (clearScreen s).pc = s.pc ∧ (clearScreen s).iReg = s.iReg ∧
    (clearScreen s).stack = s.stack :=
  foldl_clearColumn_frame (List.range DISPLAY_WIDTH) s

theorem drawRows_frame_of_some {x y loc : Nat} {idx cnt : Nat} {s s' : Chip8State}
    (h : drawRows x y loc idx cnt s = some s') :
    s'.pc = s.pc ∧ s'.iReg = s.iReg ∧ s'.stack = s.stack := by
  induction cnt generalizing idx s with
  | zero =>
    injection h with h
    subst h
    exact ⟨rfl, rfl, rfl⟩
  | succ cnt ih =>
    rw [show drawRows x y loc idx (cnt + 1) s =
        (if DISPLAY_HEIGHT ≤ y + idx then drawRows x y loc (idx + 1) cnt s
         else match getMemoryU8 s ((loc + idx) % 65536) with
           | none => none
           | some v => drawRows x y loc (idx + 1) cnt (drawCols x (y + idx) v 8 s))
        from rfl] at h
    split at h
    · exact ih h
    · cases hg : getMemoryU8 s ((loc + idx) % 65536) with
      | none =>
        rw [hg] at h
        exact Option.noConfusion h
      | some v =>
        rw [hg] at h
        obtain ⟨f1, f2, f3⟩ := ih h
        have hfr := drawCols_frame x (y + idx) v 8 s
        exact ⟨f1.trans hfr.2.1, f2.trans hfr.2.2.1, f3.trans hfr.2.2.2.1⟩

theorem storeLoop_addrInv {idx cnt : Nat} {s s' : Chip8State}
    (hinv : AddrInv s) (h : storeLoop idx cnt s = some s') : AddrInv s' := by
  induction cnt generalizing idx s with
  | zero =>
    injection h with h
    subst h
    exact hinv
  | succ cnt ih =>
    obtain ⟨hpc, hiR, hstk⟩ := hinv
    simp only [storeLoop] at h
    cases hm1 : setMemoryU8 s s.iReg (s.regs idx) with
    | none =>
      rw [hm1] at h
      exact Option.noConfusion h
    | some s1 =>
      rw [hm1] at h
      replace h : (setI s1 ((s1.iReg + 1) % 65536)).bind
          (fun s2 => storeLoop (idx + 1) cnt s2) = some s' := h
      cases hm2 : setI s1 ((s1.iReg + 1) % 65536) with
      | none =>
        rw [hm2] at h
        exact Option.noConfusion h
      | some s2 =>
        rw [hm2] at h
        replace h : storeLoop (idx + 1) cnt s2 = some s' := h
        obtain ⟨f1, f2, f3⟩ := setMemoryU8_frame_of_some hm1
        refine ih ?_ h
        refine setI_addrInv ?_ ?_ (by omega) hm2
        · rw [f1]
          exact hpc
        · rw [f3]
          exact hstk

theorem loadLoop_addrInv {idx cnt : Nat} {s s' : Chip8State}
    (hinv : AddrInv s) (h : loadLoop idx cnt s = some s') : AddrInv s' := by
  induction cnt generalizing idx s with
  | zero =>
    injection h with h
    subst h
    exact hinv
  | succ cnt ih =>
    obtain ⟨hpc, hiR, hstk⟩ := hinv
    simp only [loadLoop] at h
    cases hm1 : getMemoryU8 s s.iReg with
    | none =>
      rw [hm1] at h
      exact Option.noConfusion h
    | some v =>
      rw [hm1] at h
      replace h : (setI (setRegister s idx v) (((setRegister s idx v).iReg + 1) % 65536)).bind
          (fun s3 => loadLoop (idx + 1) cnt s3) = some s' := h
      cases hm2 : setI (setRegister s idx v) (((setRegister s idx v).iReg + 1) % 65536) with
      | none =>
        rw [hm2] at h
        exact Option.noConfusion h
      | some s3 =>
        rw [hm2] at h
        replace h : loadLoop (idx + 1) cnt s3 = some s' := h
        refine ih ?_ h
        refine setI_addrInv ?_ ?_ ?_ hm2
        · exact hpc
        · exact hstk
        · omega

/-- decode only produces operands inside their nibble/byte/address ranges,
whatever the input word: every operand is cut out by a mask. -/
theorem decode_wellFormed {w : Nat} {i : Instruction}
    (hi : decode w = some i) : wellFormed i := by
  unfold decode at hi
  simp only [nib3, nib2, nib1, and_15_eq_mod, and_255_eq_mod, and_4095_eq_mod] at hi
  split at hi <;>
    first
    | exact Option.noConfusion hi
    | ((injection hi with h; subst h; simp only [wellFormed]) <;> omega)
    | (split at hi <;>
        first
        | exact Option.noConfusion hi
        | ((injection hi with h; subst h; simp only [wellFormed]) <;> omega)
        | (split at hi <;>
            first
            | exact Option.noConfusion hi
            | ((injection hi with h; subst h; simp only [wellFormed]) <;> omega)
            | (split at hi <;>
                first
                | exact Option.noConfusion hi
                | ((injection hi with h; subst h; simp only [wellFormed]) <;> omega))))

set_option maxHeartbeats 1000000 in
theorem execute_addrInv (ins : Instruction) (pressed last : List Keycode)
    (step ts : Nat) (s s' : Chip8State) (hwf : wellFormed ins)
    (hinv : AddrInv s) (h : execute ins pressed last step ts s = some s') :
    AddrInv s' := by
  obtain ⟨hpc, hiR, hstk⟩ := hinv
  cases ins with
  | executeMachineLanguageRoutine =>
    exact Option.noConfusion h
  | clear =>
    injection h with h
    subst h
    obtain ⟨f1, f2, f3⟩ := clearScreen_frame s
    exact ⟨by rw [f1]; exact hpc, by rw [f2]; exact hiR, by rw [f3]; exact hstk⟩
  | subroutineReturn =>
    simp only [execute, stackPop] at h
    cases hl : s.stack with
    | nil =>
      rw [hl] at h
      exact Option.noConfusion h
    | cons v rest =>
      rw [hl] at h
      replace h : setPc { s with stack := rest } v = some s' := h
      have hv : v < 0x1000 := hstk v (by rw [hl]; exact List.mem_cons_self v rest)
      refine setPc_addrInv ?_ ?_ ?_ h
      · exact hiR
      · intro a ha
        refine hstk a ?_
        rw [hl]
        exact List.mem_cons_of_mem v ha
      · omega
  | jump nnn =>
    simp only [execute] at h
    simp only [wellFormed] at hwf
    exact setPc_addrInv hiR hstk (by omega) h
  | subroutineCall nnn =>
    simp only [execute] at h
    simp only [wellFormed] at hwf
    refine setPc_addrInv ?_ ?_ ?_ h
    · exact hiR
    · intro a ha
      replace ha : a ∈ s.pc :: s.stack := ha
      rcases List.mem_cons.mp ha with rfl | hmem
      · exact hpc
      · exact hstk a hmem
    · omega
  | skipConditional1 vx nn =>
    simp only [execute] at h
    split at h
    · exact setPc_addrInv hiR hstk (by omega) h
    · injection h with h
      subst h
      exact ⟨hpc, hiR, hstk⟩
  | skipConditional2 vx nn =>
    simp only [execute] at h
    split at h
    · exact setPc_addrInv hiR hstk (by omega) h
    · injection h with h
      subst h
      exact ⟨hpc, hiR, hstk⟩
  | skipConditional3 vx vy =>
    simp only [execute] at h
    split at h
    · exact setPc_addrInv hiR hstk (by omega) h
    · injection h with h
      subst h
      exact ⟨hpc, hiR, hstk⟩
  | setRegister vx nn =>
    injection h with h
    subst h
    exact ⟨hpc, hiR, hstk⟩
  | add vx nn =>
    injection h with h
    subst h
    exact ⟨hpc, hiR, hstk⟩
  | regSet vx vy =>
    injection h with h
    subst h
    exact ⟨hpc, hiR, hstk⟩
  | binaryOr vx vy =>
    injection h with h
    subst h
    exact ⟨hpc, hiR, hstk⟩
  | binaryAnd vx vy =>
    injection h with h
    subst h
    exact ⟨hpc, hiR, hstk⟩
  | binaryXor vx vy =>
    injection h with h
    subst h
    exact ⟨hpc, hiR, hstk⟩
  | regAdd vx vy =>
    injection h with h
    subst h
    exact ⟨hpc, hiR, hstk⟩
  | subtract1 vx vy =>
    injection h with h
    subst h
    exact ⟨hpc, hiR, hstk⟩
  | shiftRight vx vy =>
    injection h with h
    subst h
    exact ⟨hpc, hiR, hstk⟩
  | subtract2 vx vy =>
    injection h with h
    subst h
    exact ⟨hpc, hiR, hstk⟩
  | shiftLeft vx vy =>
    injection h with h
    subst h
    exact ⟨hpc, hiR, hstk⟩
  | skipConditional4 vx vy =>
    simp only [execute] at h
    split at h
    · exact setPc_addrInv hiR hstk (by omega) h
    · injection h with h
      subst h
      exact ⟨hpc, hiR, hstk⟩
  | setIndexRegister nnn =>
    simp only [execute] at h
    simp only [wellFormed] at hwf
    exact setI_addrInv hpc hstk (by omega) h
  | jumpOffset nnn =>
    simp only [execute] at h
    exact setPc_addrInv hiR hstk (by omega) h
  | random vx nn =>
    injection h with h
    subst h
    exact ⟨hpc, hiR, hstk⟩
  | draw vx vy n =>
    simp only [execute] at h
    split at h
    · exact setPc_addrInv hiR hstk (by omega) h
    · obtain ⟨f1, f2, f3⟩ := drawRows_frame_of_some h
      exact ⟨by rw [f1]; exact hpc, by rw [f2]; exact hiR, by rw [f3]; exact hstk⟩
  | skipIfKey vx =>
    simp only [execute] at h
    split at h
    · split at h
      · exact setPc_addrInv hiR hstk (by omega) h
      · injection h with h
        subst h
        exact ⟨hpc, hiR, hstk⟩
    · injection h with h
      subst h
      exact ⟨hpc, hiR, hstk⟩
  | skipIfNotKey vx =>
    simp only [execute] at h
    split at h
    · split at h
      · injection h with h
        subst h
        exact ⟨hpc, hiR, hstk⟩
      · exact setPc_addrInv hiR hstk (by omega) h
    · exact Option.noConfusion h
  | getDelayTimer vx =>
    injection h with h
    subst h
    exact ⟨hpc, hiR, hstk⟩
  | setDelayTimer vx =>
    injection h with h
    subst h
    exact ⟨hpc, hiR, hstk⟩
  | setSoundTimer vx =>
    injection h with h
    subst h
    exact ⟨hpc, hiR, hstk⟩
  | addToIndex vx =>
    simp only [execute] at h
    exact setI_addrInv hpc hstk (by omega) h
  | getKey vx =>
    simp only [execute] at h
    split at h
    · split at h
      · injection h with h
        subst h
        exact ⟨hpc, hiR, hstk⟩
      · exact Option.noConfusion h
    · exact setPc_addrInv hiR hstk (by omega) h
  | fontCharacter vx =>
    simp only [execute] at h
    obtain ⟨f1, f2, f3⟩ := setMemoryU16_frame_of_some h
    exact ⟨by rw [f1]; exact hpc, by rw [f2]; exact hiR, by rw [f3]; exact hstk⟩
  | bcd vx =>
    simp only [execute] at h
    cases hm1 : setMemoryU8 s s.iReg (s.regs vx / 100) with
    | none =>
      rw [hm1] at h
      exact Option.noConfusion h
    | some s1 =>
      rw [hm1] at h
      replace h : (setMemoryU8 s1 ((s1.iReg + 1) % 65536) (s.regs vx % 100 / 10)).bind
          (fun s2 => setMemoryU8 s2 ((s2.iReg + 2) % 65536) (s.regs vx % 10)) = some s' := h
      cases hm2 : setMemoryU8 s1 ((s1.iReg + 1) % 65536) (s.regs vx % 100 / 10) with
      | none =>
        rw [hm2] at h
        exact Option.noConfusion h
      | some s2 =>
        rw [hm2] at h
        replace h : setMemoryU8 s2 ((s2.iReg + 2) % 65536) (s.regs vx % 10) = some s' := h
        obtain ⟨f1, f2, f3⟩ := setMemoryU8_frame_of_some hm1
        obtain ⟨g1, g2, g3⟩ := setMemoryU8_frame_of_some hm2
        obtain ⟨k1, k2, k3⟩ := setMemoryU8_frame_of_some h
        refine ⟨?_, ?_, ?_⟩
        · rw [k1, g1, f1]
          exact hpc
        · rw [k2, g2, f2]
          exact hiR
        · rw [k3, g3, f3]
          exact hstk
  | storeMemory vx =>
    simp only [execute] at h
    exact storeLoop_addrInv ⟨hpc, hiR, hstk⟩ h
  | loadMemory vx =>
    simp only [execute] at h
    exact loadLoop_addrInv ⟨hpc, hiR, hstk⟩ h
  | db w =>
    injection h with h
    subst h
    exact ⟨hpc, hiR, hstk⟩

theorem fetchDecode_ok_addrInv {s s1 : Chip8State} {ins : Instruction} {w : Nat}
    (hiR : s.iReg < 0x1000) (hstk : ∀ a ∈ s.stack, a < 0x1000)
    (h : fetchDecode s = .ok (ins, w, s1)) :
    wellFormed ins ∧ AddrInv s1 := by
  unfold fetchDecode at h
  cases hg : getMemoryU16 s s.pc with
  | none =>
    rw [hg] at h
    exact Except.noConfusion h
  | some w0 =>
    rw [hg] at h
    dsimp only at h
    cases hp : setPc s ((s.pc + 2) % 65536) with
    | none =>
      rw [hp] at h
      exact Except.noConfusion h
    | some st1 =>
      rw [hp] at h
      dsimp only at h
      cases hd : decode w0 with
      | none =>
        rw [hd] at h
        exact Except.noConfusion h
      | some ins0 =>
        rw [hd] at h
        dsimp only at h
        injection h with h
        injection h with h1 h2
        injection h2 with h2 h3
        subst h1
        subst h2
        subst h3
        exact ⟨decode_wellFormed hd, setPc_addrInv hiR hstk (by omega) hp⟩

theorem stepEvent_addrInv {s s' : Chip8State} {e : Event}
    (hinv : AddrInv s) (h : stepEvent s e = some s') : AddrInv s' := by
  obtain ⟨hpc, hiR, hstk⟩ := hinv
  cases e with
  | vmStep pressed last step ts =>
    simp only [stepEvent] at h
    cases hf : fetchDecode s with
    | error m =>
      rw [hf] at h
      exact Option.noConfusion h
    | ok t =>
      obtain ⟨ins, w, s1⟩ := t
      rw [hf] at h
      dsimp only at h
      obtain ⟨hwf, hinv1⟩ := fetchDecode_ok_addrInv hiR hstk hf
      cases he : execute ins pressed last step ts s1 with
      | none =>
        rw [he] at h
        exact Option.noConfusion h
      | some s2 =>
        rw [he] at h
        have hinv2 := execute_addrInv ins pressed last step ts s1 s2 hwf hinv1 he
        injection h with h
        subst h
        by_cases h12 : step % 12 = 0
        · rw [if_pos h12]
          exact hinv2
        · rw [if_neg h12]
          exact hinv2
  | dbgJump a =>
    replace h : setPc s (a % 65536) = some s' := h
    exact setPc_addrInv hiR hstk (by omega) h
  | dbgPush v =>
    injection h with h
    subst h
    unfold pushCommand
    by_cases hc : v &&& 0x0FFF ≠ v
    · rw [if_pos hc]
      exact ⟨hpc, hiR, hstk⟩
    · rw [if_neg hc]
      have hv : v < 4096 := (maskFFF_self_iff v).mp (not_ne_iff.mp hc)
      refine ⟨hpc, hiR, ?_⟩
      intro a ha
      rcases List.mem_cons.mp ha with rfl | hmem
      · omega
      · exact hstk a hmem
  | dbgPop =>
    injection h with h
    subst h
    unfold popCommand stackPop
    cases hl : s.stack with
    | nil =>
      exact ⟨hpc, hiR, hstk⟩
    | cons v rest =>
      refine ⟨hpc, hiR, ?_⟩
      intro a ha
      replace ha : a ∈ rest := ha
      refine hstk a ?_
      rw [hl]
      exact List.mem_cons_of_mem v ha
  | dbgSetPc v =>
    replace h : setPcCommand v s = some s' := h
    unfold setPcCommand at h
    by_cases hc : (v + 2) &&& 0x0FFF ≠ v + 2
    · rw [if_pos hc] at h
      injection h with h
      subst h
      exact ⟨hpc, hiR, hstk⟩
    · rw [if_neg hc] at h
      exact setPc_addrInv hiR hstk (by omega) h
  | dbgSetI v =>
    replace h : setICommand v s = some s' := h
    unfold setICommand at h
    by_cases hc : v &&& 0x0FFF ≠ v
    · rw [if_pos hc] at h
      injection h with h
      subst h
      exact ⟨hpc, hiR, hstk⟩
    · rw [if_neg hc] at h
      exact setI_addrInv hpc hstk (by omega) h
  | dbgSetReg r v =>
    injection h with h
    subst h
    unfold setRegCommand
    by_cases hc : v &&& 0xFF ≠ v
    · rw [if_pos hc]
      exact ⟨hpc, hiR, hstk⟩
    · rw [if_neg hc]
      exact ⟨hpc, hiR, hstk⟩
  | dbgSetMem a v =>
    replace h : setMemCommand a v s = some s' := h
    unfold setMemCommand at h
    by_cases h1 : a &&& 0x0FFF ≠ a
    · rw [if_pos h1] at h
      injection h with h
      subst h
      exact ⟨hpc, hiR, hstk⟩
    · rw [if_neg h1] at h
      by_cases h2 : v &&& 0xFF ≠ v
      · rw [if_pos h2] at h
        injection h with h
        subst h
        exact ⟨hpc, hiR, hstk⟩
      · rw [if_neg h2] at h
        obtain ⟨f1, f2, f3⟩ := setMemoryU8_frame_of_some h
        exact ⟨by rw [f1]; exact hpc, by rw [f2]; exact hiR, by rw [f3]; exact hstk⟩
  | dbgSetDelay v =>
    injection h with h
    subst h
    unfold setDelayCommand
    by_cases hc : v &&& 0xFF ≠ v
    · rw [if_pos hc]
      exact ⟨hpc, hiR, hstk⟩
    · rw [if_neg hc]
      exact ⟨hpc, hiR, hstk⟩
  | dbgSetSound v =>
    injection h with h
    subst h
    unfold setSoundCommand
    by_cases hc : v &&& 0xFF ≠ v
    · rw [if_pos hc]
      exact ⟨hpc, hiR, hstk⟩
    · rw [if_neg hc]
      exact ⟨hpc, hiR, hstk⟩

theorem runTrace_addrInv (events : List Event) {s s' : Chip8State}
    (hinv : AddrInv s) (h : runTrace events s = some s') : AddrInv s' := by
  induction events generalizing s with
  | nil =>
    injection h with h
    subst h
    exact hinv
  | cons e rest ih =>
    simp only [runTrace] at h
    cases he : stepEvent s e with
    | none =>
      rw [he] at h
      exact Option.noConfusion h
    | some s1 =>
      rw [he] at h
      exact ih (stepEvent_addrInv hinv he) h

/-- C6: starting from the initialized machine (PC = 0x200, I = 0, empty
stack) and running any sequence of runtime-loop steps (fetch, decode,
execute, timer tick) and state-mutating debugger commands (jump, push,
pop, set) that completes without a fatal error, the resulting state always
has PC < 0x1000, I < 0x1000 and every live stack entry < 0x1000: every
write to PC or I goes through the asserting set_pc / set_i on a value
already reduced mod 2^16, and every value pushed on the stack is either
the checked debugger operand or the current (in-range) PC. -/
theorem runtime_addr_invariant (m : Nat → Nat) (events : List Event)
    (s' : Chip8State) (h : runTrace events (initialized m) = some s') :
    s'.pc < 0x1000 ∧ s'.iReg < 0x1000 ∧ ∀ a ∈ s'.stack, a < 0x1000 := by
  have start : AddrInv (initialized m) :=
    ⟨by show (0x200 : Nat) < 0x1000; omega, by show (0 : Nat) < 0x1000; omega,
      fun a ha => absurd ha (List.not_mem_nil a)⟩
  exact runTrace_addrInv events start h

/-- C6 witness: one runtime-loop step on the ROM whose first word is the
jump 0x1200, which lands back on the initialized state. -/
theorem runtime_addr_invariant_witness :
    (initialized romC6).pc < 0x1000 ∧ (initialized romC6).iReg < 0x1000 ∧
    ∀ a ∈ (initialized romC6).stack, a < 0x1000 :=
  runtime_addr_invariant romC6 [Event.vmStep [] [] 1 0] (initialized romC6) rfl

end Chip8
